import Mathlib

/-!
dealgood, the entry point of the thunderdome load generator.

A verification development for `dealgood/main.go`.  The file embeds the
command's flag set, the `Run` action, `readExperimentFile`,
`startPrometheusServer`, `setTracerProvider` and `buildTracerExporters` as
Lean functions.  Every call that leaves `main.go` (constructors of request
sources, the file system, the JSON decoder, the experiment validator, the
front-ends, the exporter constructors) is answered by a `World` of oracles
and written to a trace of `Event`s, so that "this function is never invoked"
is a statement about the trace.
-/

namespace Dealgood

/-! ## Go errors -/

/-- Go `error` values as `main.go` builds them.  `leaf` is an error value
handed back by a collaborator, the other three are the `fmt.Errorf` calls of
the file, each a constant text followed by one verb. -/
inductive GoError where
  /-- error produced outside `main.go`, known by its message -/
  | leaf (msg : String)
  /-- `fmt.Errorf(pre + "%s", arg)` -/
  | errorfS (pre : String) (arg : String)
  /-- `fmt.Errorf(pre + "%q", arg)` -/
  | errorfQ (pre : String) (arg : String)
  /-- `fmt.Errorf(pre + "%w", inner)`: an error wrapping `inner` -/
  | errorfW (pre : String) (inner : GoError)
  deriving DecidableEq, Repr

/-- `errors.Unwrap`: only an error built with the `%w` verb wraps another. -/
def GoError.Unwrap : GoError → Option GoError
  | .errorfW _ inner => some inner
  | _ => none

/-- `err.Error()`, the rendered message.  The `%q` verb quotes its argument
with `strconv.Quote`, taken here as the parameter `quote`. -/
def GoError.Error (quote : String → String) : GoError → String
  | .leaf msg => msg
  | .errorfS pre arg => pre ++ arg
  | .errorfQ pre arg => pre ++ quote arg
  | .errorfW pre inner => pre ++ inner.Error quote

/-! ## Data model -/

/-- Modelled from the spec: the type `BackendJSON` is declared outside
`main.go`; the fields are the two that `Run` writes, `{baseURL, host?}` in the
spec's record. -/
structure BackendJSON where
  BaseURL : String
  Host : String
  deriving DecidableEq, Repr

/-- Modelled from the spec: the type `ExperimentJSON` is declared outside
`main.go`; the fields are the five that `Run` writes, `{name, backends, rate,
concurrency, duration}` in the spec's record.  `Backends` is Go's
`[]*BackendJSON`, every pointer fresh, so a list of values. -/
structure ExperimentJSON where
  Name : String
  Rate : Int
  Concurrency : Int
  Duration : Int
  Backends : List BackendJSON
  deriving DecidableEq, Repr

/-- The value of `var exp ExperimentJSON`: every field zero. -/
def ExperimentJSON.zero : ExperimentJSON :=
  { Name := "", Rate := 0, Concurrency := 0, Duration := 0, Backends := [] }

/-- The package variable `flags` (main.go 129-144). -/
structure Flags where
  experimentName : String
  experimentFile : String
  source : String
  sourceParam : String
  nogui : Bool
  targets : List String
  host : String
  rate : Int
  concurrency : Int
  duration : Int
  timings : Bool
  failures : Bool
  quiet : Bool
  prometheusAddr : String
  deriving DecidableEq, Repr

/-- The `Value:` of every flag of `app.Flags` (main.go 29-126); a flag
declared without a `Value` starts at the zero value of its type. -/
def Flags.default : Flags :=
  { experimentName := "adhoc"
    experimentFile := ""
    source := "-"
    sourceParam := ""
    nogui := false
    targets := ["http://localhost:8080"]
    host := ""
    rate := 10
    concurrency := 10
    duration := 60
    timings := true
    failures := false
    quiet := false
    prometheusAddr := "" }

/-- The request sources `Run` can build, each named by the constructor call
that builds it.  `NewRandomRequestSource` stands for the call on the package
variable `sampleRequests`. -/
inductive RequestSource where
  | NewRandomRequestSource
  | NewNginxLogRequestSource (param : String)
  | NewStdinRequestSource
  deriving DecidableEq, Repr

/-- The value `NewGui(source, exp)` returns. -/
structure Gui where
  source : RequestSource
  exp : ExperimentJSON
  deriving DecidableEq, Repr

/-- The span exporters `buildTracerExporters` can build, each named by the
package whose `New` builds it. -/
inductive SpanExporter where
  | otlp
  | jaeger
  | zipkin
  deriving DecidableEq, Repr

/-- What `encoding/json` writes when it decodes a document into an
`ExperimentJSON`: a field is written when its key is present and left alone
when it is absent. -/
structure ExperimentPatch where
  Name : Option String
  Rate : Option Int
  Concurrency : Option Int
  Duration : Option Int
  Backends : Option (List BackendJSON)
  deriving DecidableEq, Repr

/-- `Decode(exp)`: the fields the document holds overwrite those of `exp`. -/
def ExperimentPatch.apply (p : ExperimentPatch) (exp : ExperimentJSON) : ExperimentJSON :=
  { Name := p.Name.getD exp.Name
    Rate := p.Rate.getD exp.Rate
    Concurrency := p.Concurrency.getD exp.Concurrency
    Duration := p.Duration.getD exp.Duration
    Backends := p.Backends.getD exp.Backends }

/-! ## Effects -/

/-- One entry of the trace: a function of the package being entered, or a
call that leaves `main.go`. -/
inductive Event where
  | NewRandomRequestSource
  | NewNginxLogRequestSource (param : String)
  | NewStdinRequestSource
  | readExperimentFile (fname : String)
  | osOpen (fname : String)
  | jsonDecode (fname : String)
  | fileClose (fname : String)
  | validateExperiment (exp : ExperimentJSON)
  | startPrometheusServer (addr : String)
  | prometheusNewExporter
  | viewRegisterExporter
  | viewSetReportingPeriod (seconds : Nat)
  | goListenAndServe (addr : String)
  | otelSetTextMapPropagator
  | setTracerProvider
  | buildTracerExporters
  | otlptracegrpcNew
  | jaegerNew
  | zipkinNew
  | otelSetTracerProvider (batchers : List SpanExporter)
  | nogui (source : RequestSource) (exp : ExperimentJSON) (printHeader timings failures : Bool)
  | NewGui (source : RequestSource) (exp : ExperimentJSON)
  | GuiShow (g : Gui) (milliseconds : Nat)
  | GuiClose (g : Gui)
  deriving DecidableEq, Repr

/-- The answers of everything `main.go` calls but does not define. -/
structure World where
  /-- the error of `NewNginxLogRequestSource(param)`, if any -/
  NewNginxLogRequestSource : String → Option GoError
  /-- `os.Open(fname)`: the contents of the file, or the error -/
  osOpen : String → Except GoError String
  /-- `json.NewDecoder(f).Decode(exp)` on a file of these contents: what was
  written into `exp`, and the error, if any -/
  jsonDecode : String → ExperimentPatch × Option GoError
  /-- the error of `validateExperiment(exp)`, if any -/
  validateExperiment : ExperimentJSON → Option GoError
  /-- the error of `prometheus.NewExporter`, if any -/
  prometheusNewExporter : Option GoError
  /-- `os.Getenv("OTEL_TRACES_EXPORTER")` -/
  otelTracesExporter : String
  /-- the error of `otlptracegrpc.New`, if any -/
  otlptracegrpcNew : Option GoError
  /-- the error of `jaeger.New`, if any -/
  jaegerNew : Option GoError
  /-- the error of `zipkin.New`, if any -/
  zipkinNew : Option GoError
  /-- the error `nogui` returns, if any -/
  nogui : RequestSource → ExperimentJSON → Bool → Bool → Bool → Option GoError
  /-- the error of `NewGui(source, exp)`, if any -/
  NewGui : RequestSource → ExperimentJSON → Option GoError
  /-- the error `g.Show` returns, if any -/
  GuiShow : Gui → Option GoError

/-- A computation of `main.go`: the events it caused, in order, and either
the value it produced or the error it returned. -/
structure Eff (α : Type) where
  trace : List Event
  result : Except GoError α

/-- Sequencing: an error ends the computation, keeping the events so far. -/
def Eff.bind {α β : Type} (m : Eff α) (k : α → Eff β) : Eff β :=
  match m.result with
  | .error e => ⟨m.trace, .error e⟩
  | .ok a => ⟨m.trace ++ (k a).trace, (k a).result⟩

instance : Monad Eff where
  pure a := ⟨[], .ok a⟩
  bind := Eff.bind

/-- Record one event. -/
def emit (e : Event) : Eff Unit := ⟨[e], .ok ()⟩

/-- The statement `return err`. -/
def fail {α : Type} (e : GoError) : Eff α := ⟨[], .error e⟩

/-- The statement `if err != nil { return fmt.Errorf(pre + "%w", err) }`. -/
def check (pre : String) : Option GoError → Eff Unit
  | none => pure ()
  | some e => fail (.errorfW pre e)

/-- The statement `return err` for an `err` that may be nil. -/
def ret : Option GoError → Eff Unit
  | none => pure ()
  | some e => fail e

/-- The error a computation returned, Go's `nil` being `none`. -/
def Eff.err {α : Type} (m : Eff α) : Option GoError :=
  match m.result with
  | .error e => some e
  | .ok _ => none

/-- Run a callee that hands back its events, a value and a possibly nil error:
the statement `v, err := f(...); if err != nil { return err }`. -/
def call {α : Type} (r : List Event × α × Option GoError) : Eff α :=
  match r.2.2 with
  | some e => ⟨r.1, .error e⟩
  | none => ⟨r.1, .ok r.2.1⟩

/-- The statement `if err := m; err != nil { return fmt.Errorf(pre + "%w", err) }`
for a callee `m` of this file. -/
def wrapErr (pre : String) (m : Eff Unit) : Eff Unit :=
  match m.result with
  | .error e => ⟨m.trace, .error (.errorfW pre e)⟩
  | .ok u => ⟨m.trace, .ok u⟩

/-- The statement `if err := f(..., &v); err != nil { return fmt.Errorf(pre +
"%w", err) }` for a callee of this file that writes `v` and hands back its
events and a possibly nil error. -/
def wrapErrV {α : Type} (pre : String) (r : List Event × α × Option GoError) : Eff α :=
  match r.2.2 with
  | some e => ⟨r.1, .error (.errorfW pre e)⟩
  | none => ⟨r.1, .ok r.2.1⟩

/-! ## Library functions -/

/-- The pieces of a text between the occurrences of `sep`; a text without
`sep` is one piece, and `n` occurrences give `n + 1` pieces, empty ones
included. -/
def splitChars (sep : Char) : List Char → List (List Char)
  | [] => [[]]
  | c :: cs =>
    if c = sep then [] :: splitChars sep cs
    else
      match splitChars sep cs with
      | [] => [[c]]
      | piece :: pieces => (c :: piece) :: pieces

/-- Go's `strings.Split(s, sep)` for a separator of one character. -/
def stringsSplit (s : String) (sep : Char) : List String :=
  (splitChars sep s.data).map String.mk

/-! ## The functions of main.go -/

/-- The `for ... range strings.Split(...)` loop of `buildTracerExporters`
(main.go 285-308): `exporters` is the slice built so far, `tr` the events so
far; every error path returns `nil` for the slice. -/
def buildTracerExporters.loop (w : World) :
    List String → List SpanExporter → List Event → List Event × List SpanExporter × Option GoError
  | [], exporters, tr => (tr, exporters, none)
  | exporterStr :: rest, exporters, tr =>
    if exporterStr = "otlp" then
      match w.otlptracegrpcNew with
      | some err => (tr ++ [.otlptracegrpcNew], [], some (.errorfW "new OTLP gRPC exporter: " err))
      | none => buildTracerExporters.loop w rest (exporters ++ [.otlp]) (tr ++ [.otlptracegrpcNew])
    else if exporterStr = "jaeger" then
      match w.jaegerNew with
      | some err => (tr ++ [.jaegerNew], [], some (.errorfW "new Jaeger exporter: " err))
      | none => buildTracerExporters.loop w rest (exporters ++ [.jaeger]) (tr ++ [.jaegerNew])
    else if exporterStr = "zipkin" then
      match w.zipkinNew with
      | some err => (tr ++ [.zipkinNew], [], some (.errorfW "new Zipkin exporter: " err))
      | none => buildTracerExporters.loop w rest (exporters ++ [.zipkin]) (tr ++ [.zipkinNew])
    else
      (tr, [], some (.errorfQ "unknown or unsupported exporter: " exporterStr))

/-- The function `buildTracerExporters` (main.go 278-310): its events, the
slice it returns and the error it returns. -/
def buildTracerExporters (w : World) : List Event × List SpanExporter × Option GoError :=
  if w.otelTracesExporter = "" then
    ([.buildTracerExporters], [], none)
  else
    buildTracerExporters.loop w (stringsSplit w.otelTracesExporter ',') [] [.buildTracerExporters]

/-- The function `setTracerProvider` (main.go 260-276). -/
def setTracerProvider (w : World) : Eff Unit := do
  emit .setTracerProvider
  let exporters ← call (buildTracerExporters w)
  let options := exporters.foldl (fun options exporter => options ++ [exporter]) []
  emit (.otelSetTracerProvider options)

/-- The function `startPrometheusServer` (main.go 238-258). -/
def startPrometheusServer (w : World) (addr : String) : Eff Unit := do
  emit (.startPrometheusServer addr)
  emit .prometheusNewExporter
  check "new prometheus exporter: " w.prometheusNewExporter
  emit .viewRegisterExporter
  emit (.viewSetReportingPeriod 2)
  emit (.goListenAndServe addr)

/-- The function `readExperimentFile` (main.go 225-236): its events, the
experiment behind the pointer `exp` when it returns, and the error it
returns. -/
def readExperimentFile (w : World) (fname : String) (exp : ExperimentJSON) :
    List Event × ExperimentJSON × Option GoError :=
  match w.osOpen fname with
  | .error err =>
    ([.readExperimentFile fname, .osOpen fname], exp, some (.errorfW "open: " err))
  | .ok contents =>
    match (w.jsonDecode contents).2 with
    | some err =>
      ([.readExperimentFile fname, .osOpen fname, .jsonDecode fname, .fileClose fname],
        (w.jsonDecode contents).1.apply exp, some (.errorfW "parse: " err))
    | none =>
      ([.readExperimentFile fname, .osOpen fname, .jsonDecode fname, .fileClose fname],
        (w.jsonDecode contents).1.apply exp, none)

/-- The action `Run` (main.go 154-223) on the package variable `flags`. -/
def Run (w : World) (flags0 : Flags) : Eff Unit := do
  let flags : Flags :=
    if flags0.quiet then { flags0 with timings := false, failures := false } else flags0
  let source : RequestSource ←
    if flags.source = "random" then do
      emit .NewRandomRequestSource
      pure RequestSource.NewRandomRequestSource
    else if flags.source = "nginxlog" then do
      emit (.NewNginxLogRequestSource flags.sourceParam)
      check "nginx source: " (w.NewNginxLogRequestSource flags.sourceParam)
      pure (RequestSource.NewNginxLogRequestSource flags.sourceParam)
    else if flags.source = "-" then do
      emit .NewStdinRequestSource
      pure RequestSource.NewStdinRequestSource
    else
      fail (.errorfS "unsupported source: " flags.source)
  let exp : ExperimentJSON ←
    if flags.experimentFile ≠ "" then
      wrapErrV "read experiment file: "
        (readExperimentFile w flags.experimentFile ExperimentJSON.zero)
    else
      pure
        { ExperimentJSON.zero with
          Name := flags.experimentName
          Rate := flags.rate
          Concurrency := flags.concurrency
          Duration := flags.duration
          Backends :=
            flags.targets.foldl
              (fun backends be => backends ++ [{ BaseURL := be, Host := flags.host }])
              ExperimentJSON.zero.Backends }
  emit (.validateExperiment exp)
  check "experiment: " (w.validateExperiment exp)
  if flags.prometheusAddr ≠ "" then
    wrapErr "start prometheus: " (startPrometheusServer w flags.prometheusAddr)
  emit .otelSetTextMapPropagator
  wrapErr "set tracer provider: " (setTracerProvider w)
  if flags.nogui then
    emit (.nogui source exp (!flags.quiet) flags.timings flags.failures)
    ret (w.nogui source exp (!flags.quiet) flags.timings flags.failures)
  else
    emit (.NewGui source exp)
    check "gui: " (w.NewGui source exp)
    let g : Gui := { source := source, exp := exp }
    emit (.GuiShow g 100)
    emit (.GuiClose g)
    ret (w.GuiShow g)

/-! ## The blocks of `Run`, named

`Run` is one Go function.  The definitions below name its consecutive blocks
so that the statements can speak of them; `Run_eq` shows that `Run` is their
sequence. -/

/-- Every event belongs to one block of `Run`: 0 the choice of the request
source, 1 the reading of the experiment file, 2 the validation, 3 the
prometheus server, 4 the tracer provider, 5 the front-end (`nogui` or the
GUI). -/
def Event.phase : Event → Nat
  | .NewRandomRequestSource => 0
  | .NewNginxLogRequestSource _ => 0
  | .NewStdinRequestSource => 0
  | .readExperimentFile _ => 1
  | .osOpen _ => 1
  | .jsonDecode _ => 1
  | .fileClose _ => 1
  | .validateExperiment _ => 2
  | .startPrometheusServer _ => 3
  | .prometheusNewExporter => 3
  | .viewRegisterExporter => 3
  | .viewSetReportingPeriod _ => 3
  | .goListenAndServe _ => 3
  | .otelSetTextMapPropagator => 4
  | .setTracerProvider => 4
  | .buildTracerExporters => 4
  | .otlptracegrpcNew => 4
  | .jaegerNew => 4
  | .zipkinNew => 4
  | .otelSetTracerProvider _ => 4
  | .nogui _ _ _ _ _ => 5
  | .NewGui _ _ => 5
  | .GuiShow _ _ => 5
  | .GuiClose _ => 5

/-- Lines 157-160 of `Run`: `quiet` clears `timings` and `failures`. -/
def quietOverride (flags0 : Flags) : Flags :=
  if flags0.quiet then { flags0 with timings := false, failures := false } else flags0

/-- Lines 162-176 of `Run`: the `switch flags.source`. -/
def selectSource (w : World) (flags : Flags) : Eff RequestSource :=
  if flags.source = "random" then do
    emit .NewRandomRequestSource
    pure RequestSource.NewRandomRequestSource
  else if flags.source = "nginxlog" then do
    emit (.NewNginxLogRequestSource flags.sourceParam)
    check "nginx source: " (w.NewNginxLogRequestSource flags.sourceParam)
    pure (RequestSource.NewNginxLogRequestSource flags.sourceParam)
  else if flags.source = "-" then do
    emit .NewStdinRequestSource
    pure RequestSource.NewStdinRequestSource
  else
    fail (.errorfS "unsupported source: " flags.source)

/-- Lines 178-195 of `Run`: the experiment, read from the file or assembled
from the flags. -/
def loadExperiment (w : World) (flags : Flags) : Eff ExperimentJSON :=
  if flags.experimentFile ≠ "" then
    wrapErrV "read experiment file: "
      (readExperimentFile w flags.experimentFile ExperimentJSON.zero)
  else
    pure
      { ExperimentJSON.zero with
        Name := flags.experimentName
        Rate := flags.rate
        Concurrency := flags.concurrency
        Duration := flags.duration
        Backends :=
          flags.targets.foldl
            (fun backends be => backends ++ [{ BaseURL := be, Host := flags.host }])
            ExperimentJSON.zero.Backends }

/-- Lines 213-222 of `Run`: `nogui`, or the GUI. -/
def frontEnd (w : World) (flags : Flags) (source : RequestSource) (exp : ExperimentJSON) :
    Eff Unit :=
  if flags.nogui then do
    emit (.nogui source exp (!flags.quiet) flags.timings flags.failures)
    ret (w.nogui source exp (!flags.quiet) flags.timings flags.failures)
  else do
    emit (.NewGui source exp)
    check "gui: " (w.NewGui source exp)
    let g : Gui := { source := source, exp := exp }
    emit (.GuiShow g 100)
    emit (.GuiClose g)
    ret (w.GuiShow g)

/-- Lines 201-211 of `Run`: the prometheus server and the tracer provider. -/
def observability (w : World) (flags : Flags) : Eff Unit := do
  if flags.prometheusAddr ≠ "" then
    wrapErr "start prometheus: " (startPrometheusServer w flags.prometheusAddr)
  emit .otelSetTextMapPropagator
  wrapErr "set tracer provider: " (setTracerProvider w)

/-- Lines 197-223 of `Run`: everything from the validation on. -/
def afterLoad (w : World) (flags : Flags) (source : RequestSource) (exp : ExperimentJSON) :
    Eff Unit := do
  emit (.validateExperiment exp)
  check "experiment: " (w.validateExperiment exp)
  observability w flags
  frontEnd w flags source exp

/-- Go's `getScheme` of `net/url` on the bytes from index `i` on, `seen` being
the bytes before them in reverse order: letters go on, a digit, `+`, `-` or
`.` goes on except in first place, a `:` ends the scheme (an error in first
place, `none` here), any other byte means the text has no scheme. -/
def getSchemeFrom : List Char → List Char → Option String
  | [], _ => some ""
  | c :: cs, seen =>
    if ('a' ≤ c ∧ c ≤ 'z') ∨ ('A' ≤ c ∧ c ≤ 'Z') then getSchemeFrom cs (c :: seen)
    else if ('0' ≤ c ∧ c ≤ '9') ∨ c = '+' ∨ c = '-' ∨ c = '.' then
      if seen = [] then some "" else getSchemeFrom cs (c :: seen)
    else if c = ':' then
      if seen = [] then none else some (String.mk seen.reverse)
    else some ""

/-- The scheme `url.Parse` finds in a text, `none` for the error "missing
protocol scheme".  Only this part of `url.Parse` is embedded; a URL is
absolute (`URL.IsAbs`) when its scheme is not empty. -/
def getScheme (rawURL : String) : Option String :=
  getSchemeFrom rawURL.data []

/-- `URL.IsAbs` of the URL `url.Parse` returns for a text, as far as the
scheme decides it: the text has a scheme and it is not empty. -/
def isAbsURL (rawURL : String) : Bool :=
  match getScheme rawURL with
  | some scheme => scheme ≠ ""
  | none => false

/-- Modelled from the spec: the function `validateExperiment` is defined
outside `main.go`.  The spec's validation invariant is "every Backend URL must
parse as absolute; rate/concurrency/duration must be positive; at least one
Backend must be present", and an experiment that breaks it is a configuration
error: "empty backend list, non-positive rate/concurrency/duration,
unparsable URL".  `parsesAbsolute` says whether a text parses as an absolute
URL. -/
def validateExperiment (parsesAbsolute : String → Bool) (exp : ExperimentJSON) :
    Option GoError :=
  if exp.Backends = [] then some (.leaf "configuration error: empty backend list")
  else if exp.Rate ≤ 0 then some (.leaf "configuration error: non-positive rate")
  else if exp.Concurrency ≤ 0 then some (.leaf "configuration error: non-positive concurrency")
  else if exp.Duration ≤ 0 then some (.leaf "configuration error: non-positive duration")
  else if exp.Backends.any (fun b => !parsesAbsolute b.BaseURL) then
    some (.leaf "configuration error: unparsable URL")
  else none

/-- The name the `switch` of `buildTracerExporters` builds an exporter for. -/
def SpanExporter.name : SpanExporter → String
  | .otlp => "otlp"
  | .jaeger => "jaeger"
  | .zipkin => "zipkin"

/-- The names the `switch` of `buildTracerExporters` has a case for. -/
def knownExporter (exporterStr : String) : Bool :=
  exporterStr = "otlp" ∨ exporterStr = "jaeger" ∨ exporterStr = "zipkin"

/-- A run selects the source `src` by the constructor call `ctor`: the call
is the first event of the run, no later event is a call of a source
constructor (each belongs to a later block), and every front-end call of the
run is handed `src`. -/
def Eff.selects (r : Eff Unit) (ctor : Event) (src : RequestSource) : Prop :=
  r.trace.head? = some ctor ∧
  (∀ ev ∈ r.trace.tail, 1 ≤ ev.phase) ∧
  (∀ s x a b c, Event.nogui s x a b c ∈ r.trace → s = src) ∧
  (∀ s x, Event.NewGui s x ∈ r.trace → s = src) ∧
  (∀ g ms, Event.GuiShow g ms ∈ r.trace → g.source = src)

/-! ## The dispatcher

`Run` hands the experiment to `nogui` or to the GUI, which run the engine; the
engine is defined outside `main.go`.  It is embedded here from the spec as a
transition system whose schedule (the order of ticks and of completions of
backend calls) is chosen freely. -/

/-- Modelled from the spec: the classification of a backend call is defined
outside `main.go`; the spec's closed set is "success", "application error",
"transport error" and "cancelled". -/
inductive OutcomeClass where
  | success
  | applicationError
  | transportError
  | cancelled
  deriving DecidableEq, Repr

/-- Modelled from the spec: the type of an Outcome is defined outside
`main.go`; "produced once per (Request, Backend) pair".  A request is named by
its position in the source, a backend by its position in the experiment. -/
structure Outcome where
  request : Nat
  backend : Nat
  cls : OutcomeClass
  deriving DecidableEq, Repr

/-- Modelled from the spec: the experiment as the engine reads it, the number
of backends and the size of the semaphore, and the source, which holds
`sourceLen` requests or is unbounded. -/
structure Engine where
  backends : Nat
  concurrency : Nat
  sourceLen : Option Nat
  deriving DecidableEq, Repr

/-- Modelled from the spec: the state of a run of the engine, which is defined
outside `main.go`.  `pulled` counts the requests pulled from the source,
`free` the free slots of the semaphore, `pending` holds the backend calls in
flight, `recorded` is the aggregator; `dispatched` and `dropped` keep the
requests that were granted a slot and those that were skipped. -/
structure EngineState where
  stopped : Bool
  pulled : Nat
  free : Nat
  pending : List (Nat × Nat)
  recorded : List Outcome
  dispatched : List Nat
  dropped : List Nat
  deriving DecidableEq, Repr

/-- What can happen next in a run of the engine. -/
inductive Action where
  /-- the pacing loop fires -/
  | tick
  /-- the call of a request to a backend ends, classified -/
  | complete (request backend : Nat) (cls : OutcomeClass)
  /-- the duration elapses or the context is cancelled -/
  | stop
  deriving DecidableEq, Repr

/-- The state a run starts in. -/
def Engine.initial (cfg : Engine) : EngineState :=
  { stopped := false, pulled := 0, free := cfg.concurrency, pending := [], recorded := [],
    dispatched := [], dropped := [] }

/-- Modelled from the spec: one step of the engine, which is defined outside
`main.go`; `none` when the action cannot happen in the state.  On a tick the
dispatcher pulls one request: an exhausted source ends the run; with no free
slot "the tick is dropped (the request is skipped, not queued)"; otherwise it
takes a slot and "spawns one concurrent task per Backend".  A backend call, on
completion, "immediately emits its Outcome" to the aggregator, and "when all
backend calls for a Request complete the semaphore slot is released".  After
the stop the dispatcher "stops issuing new ticks", and the calls in flight
still complete. -/
def Engine.step (cfg : Engine) (s : EngineState) : Action → Option EngineState
  | .tick =>
    if s.stopped then none
    else if (match cfg.sourceLen with
        | some k => decide (k ≤ s.pulled)
        | none => false) then
      some { s with stopped := true }
    else if s.free = 0 then
      some { s with pulled := s.pulled + 1, dropped := s.dropped ++ [s.pulled] }
    else
      some { s with
        pulled := s.pulled + 1
        free := if cfg.backends = 0 then s.free else s.free - 1
        pending := s.pending ++ (List.range cfg.backends).map (fun b => (s.pulled, b))
        dispatched := s.dispatched ++ [s.pulled] }
  | .complete r b cls =>
    if (r, b) ∈ s.pending then
      some { s with
        pending := s.pending.erase (r, b)
        recorded := s.recorded ++ [{ request := r, backend := b, cls := cls }]
        free := if (s.pending.erase (r, b)).any (fun q => q.1 = r) then s.free else s.free + 1 }
    else none
  | .stop => some { s with stopped := true }

/-- A run of the engine under a schedule. -/
def Engine.run (cfg : Engine) (s : EngineState) : List Action → Option EngineState
  | [] => some s
  | a :: rest =>
    match cfg.step s a with
    | none => none
    | some s1 => cfg.run s1 rest

/-- The schedule that ends a run: every call in flight completes, then the
dispatcher stops. -/
def EngineState.drain (s : EngineState) : List Action :=
  s.pending.map (fun q => Action.complete q.1 q.2 .cancelled) ++ [.stop]

/-- The pairs (request, backend) of the outcomes. -/
def pairsOf (recorded : List Outcome) : List (Nat × Nat) :=
  recorded.map (fun o => (o.request, o.backend))

/-- The pairs of the fan-out of a list of requests to `n` backends. -/
def fanOut (n : Nat) : List Nat → List (Nat × Nat)
  | [] => []
  | r :: rs => (List.range n).map (fun b => (r, b)) ++ fanOut n rs

/-- The invariant of the engine: the calls in flight and the outcomes
recorded are, together, the fan-out of the dispatched requests; no request is
dispatched twice, or both dispatched and dropped. -/
def Engine.Inv (cfg : Engine) (s : EngineState) : Prop :=
  (s.pending ++ pairsOf s.recorded).Perm (fanOut cfg.backends s.dispatched) ∧
  s.dispatched.Nodup ∧
  (∀ r ∈ s.dispatched, r < s.pulled) ∧
  (∀ r ∈ s.dropped, r < s.pulled) ∧
  (∀ r ∈ s.dropped, r ∉ s.dispatched)

/-! ## A concrete world -/

/-- A world in which every collaborator succeeds: the file `exp.json` holds an
experiment with two backends and no `duration` key, `empty.json` one with an
empty list of backends, `bad.json` is not JSON, every other file is missing,
`OTEL_TRACES_EXPORTER` is `otlp,zipkin`. -/
def calmWorld : World :=
  { NewNginxLogRequestSource := fun _ => none
    osOpen := fun fname =>
      if fname = "exp.json" then .ok "two backends"
      else if fname = "empty.json" then .ok "no backends"
      else if fname = "bad.json" then .ok "not json"
      else .error (.leaf "no such file")
    jsonDecode := fun contents =>
      if contents = "two backends" then
        ({ Name := some "ab", Rate := some 5, Concurrency := some 2, Duration := none,
           Backends := some [⟨"http://a:1", ""⟩, ⟨"http://b:2", "b.example"⟩] }, none)
      else if contents = "no backends" then
        ({ Name := some "none", Rate := some 5, Concurrency := some 2, Duration := some 9,
           Backends := some [] }, none)
      else (⟨none, none, none, none, none⟩, some (.leaf "invalid character"))
    validateExperiment := fun _ => none
    prometheusNewExporter := none
    otelTracesExporter := "otlp,zipkin"
    otlptracegrpcNew := none
    jaegerNew := none
    zipkinNew := none
    nogui := fun _ _ _ _ _ => none
    NewGui := fun _ _ => none
    GuiShow := fun _ => none }

/-- The calm world with the validator of the spec. -/
def specWorld : World :=
  { calmWorld with validateExperiment := validateExperiment isAbsURL }

/-- The calm world with a validator that turns every experiment down. -/
def strictWorld : World :=
  { calmWorld with validateExperiment := fun _ => some (.leaf "rate must be positive") }

end Dealgood

namespace Dealgood

/-! ## The effect monad -/

theorem bind_def {α β : Type} (m : Eff α) (k : α → Eff β) : (m >>= k) = Eff.bind m k := rfl

theorem pure_def {α : Type} (a : α) : (pure a : Eff α) = ⟨[], .ok a⟩ := rfl

theorem bind_assoc_eff {α β γ : Type} (m : Eff α) (k : α → Eff β) (l : β → Eff γ) :
    Eff.bind (Eff.bind m k) l = Eff.bind m (fun a => Eff.bind (k a) l) := by
  obtain ⟨t, r⟩ := m
  cases r with
  | error e => simp [Eff.bind]
  | ok a =>
    simp only [Eff.bind]
    cases h : (k a).result <;> simp

/-- `Run` is the sequence of its blocks. -/
theorem Run_eq (w : World) (f : Flags) :
    Run w f =
      Eff.bind (selectSource w (quietOverride f)) (fun source =>
        Eff.bind (loadExperiment w (quietOverride f)) (fun exp =>
          afterLoad w (quietOverride f) source exp)) := by
  have h : (if f.quiet = true then { f with timings := false, failures := false } else f)
      = quietOverride f := rfl
  simp only [Run, h]
  generalize quietOverride f = fl
  simp only [selectSource, loadExperiment, afterLoad, observability, frontEnd, bind_def]
  split_ifs <;> simp only [bind_assoc_eff]

theorem bind_of_ok {α β : Type} {m : Eff α} {a : α} (k : α → Eff β) (h : m.result = .ok a) :
    Eff.bind m k = ⟨m.trace ++ (k a).trace, (k a).result⟩ := by
  simp [Eff.bind, h]

theorem bind_of_error {α β : Type} {m : Eff α} {e : GoError} (k : α → Eff β)
    (h : m.result = .error e) : Eff.bind m k = ⟨m.trace, .error e⟩ := by
  simp [Eff.bind, h]

theorem bind_trace_mem {α β : Type} (m : Eff α) (k : α → Eff β) (ev : Event)
    (h : ev ∈ (Eff.bind m k).trace) : ev ∈ m.trace ∨ ∃ a, m.result = .ok a ∧ ev ∈ (k a).trace := by
  cases hr : m.result with
  | error e => rw [bind_of_error k hr] at h; exact Or.inl h
  | ok a =>
    rw [bind_of_ok k hr] at h
    rcases List.mem_append.1 h with h | h
    · exact Or.inl h
    · exact Or.inr ⟨a, rfl, h⟩

/-! ## The events of each block -/

theorem selectSource_phase (w : World) (fl : Flags) :
    ∀ ev ∈ (selectSource w fl).trace, ev.phase = 0 := by
  intro ev h
  simp only [selectSource, bind_def] at h
  split_ifs at h
  · simp [Eff.bind, emit, pure_def] at h; simp [h, Event.phase]
  · cases hn : w.NewNginxLogRequestSource fl.sourceParam <;>
      simp [Eff.bind, emit, pure_def, check, fail, hn] at h <;> simp [h, Event.phase]
  · simp [Eff.bind, emit, pure_def] at h; simp [h, Event.phase]
  · simp [fail] at h

theorem readExperimentFile_phase (w : World) (fname : String) (exp : ExperimentJSON) :
    ∀ ev ∈ (readExperimentFile w fname exp).1, ev.phase = 1 := by
  intro ev h
  simp only [readExperimentFile] at h
  split at h
  · simp at h; rcases h with h | h <;> simp [h, Event.phase]
  · split at h <;> simp at h <;> rcases h with h | h | h | h <;> simp [h, Event.phase]

theorem wrapErrV_trace {α : Type} (pre : String) (r : List Event × α × Option GoError) :
    (wrapErrV pre r).trace = r.1 := by
  unfold wrapErrV; split <;> rfl

theorem wrapErr_trace (pre : String) (m : Eff Unit) : (wrapErr pre m).trace = m.trace := by
  unfold wrapErr; split <;> rfl

theorem loadExperiment_phase (w : World) (fl : Flags) :
    ∀ ev ∈ (loadExperiment w fl).trace, ev.phase = 1 := by
  intro ev h
  simp only [loadExperiment] at h
  split_ifs at h
  · rw [wrapErrV_trace] at h
    exact readExperimentFile_phase _ _ _ _ h
  · simp [pure_def] at h

theorem loop_phase (w : World) (l : List String) :
    ∀ (exporters : List SpanExporter) (tr : List Event), (∀ ev ∈ tr, ev.phase = 4) →
      ∀ ev ∈ (buildTracerExporters.loop w l exporters tr).1, ev.phase = 4 := by
  induction l with
  | nil => intro exporters tr htr ev h; exact htr ev (by simpa [buildTracerExporters.loop] using h)
  | cons s rest ih =>
    intro exporters tr htr ev h
    have hext : ∀ (e0 ev : Event), ev ∈ tr ++ [e0] → e0.phase = 4 → ev.phase = 4 := by
      intro e0 ev hev h0
      rcases List.mem_append.1 hev with hev | hev
      · exact htr ev hev
      · simp at hev; rw [hev]; exact h0
    simp only [buildTracerExporters.loop] at h
    split_ifs at h
    · split at h
      · exact hext _ ev h rfl
      · exact ih _ _ (fun ev hev => hext Event.otlptracegrpcNew ev hev rfl) ev h
    · split at h
      · exact hext _ ev h rfl
      · exact ih _ _ (fun ev hev => hext Event.jaegerNew ev hev rfl) ev h
    · split at h
      · exact hext _ ev h rfl
      · exact ih _ _ (fun ev hev => hext Event.zipkinNew ev hev rfl) ev h
    · exact htr ev h

theorem buildTracerExporters_phase (w : World) :
    ∀ ev ∈ (buildTracerExporters w).1, ev.phase = 4 := by
  intro ev h
  simp only [buildTracerExporters] at h
  split_ifs at h
  · simp at h; simp [h, Event.phase]
  · exact loop_phase w _ _ _ (by simp [Event.phase]) ev h

theorem call_trace {α : Type} (r : List Event × α × Option GoError) : (call r).trace = r.1 := by
  unfold call; split <;> rfl

theorem setTracerProvider_phase (w : World) :
    ∀ ev ∈ (setTracerProvider w).trace, ev.phase = 4 := by
  intro ev h
  simp only [setTracerProvider, bind_def] at h
  rcases bind_trace_mem _ _ _ h with h | ⟨_, _, h⟩
  · simp [emit] at h; simp [h, Event.phase]
  · rcases bind_trace_mem _ _ _ h with h | ⟨_, _, h⟩
    · rw [call_trace] at h; exact buildTracerExporters_phase w ev h
    · simp [emit] at h; simp [h, Event.phase]

theorem startPrometheusServer_phase (w : World) (addr : String) :
    ∀ ev ∈ (startPrometheusServer w addr).trace, ev.phase = 3 := by
  intro ev h
  simp only [startPrometheusServer, bind_def] at h
  cases hn : w.prometheusNewExporter <;>
    simp [Eff.bind, emit, pure_def, check, fail, hn] at h <;>
    rcases h with h | h <;> try simp [h, Event.phase]
  rcases h with h | h | h | h <;> simp [h, Event.phase]

theorem observability_phase (w : World) (fl : Flags) :
    ∀ ev ∈ (observability w fl).trace, 3 ≤ ev.phase ∧ ev.phase ≤ 4 := by
  intro ev h
  have tail : ∀ ev ∈ (Eff.bind (emit Event.otelSetTextMapPropagator) fun _ =>
      wrapErr "set tracer provider: " (setTracerProvider w)).trace, 3 ≤ ev.phase ∧ ev.phase ≤ 4 := by
    intro ev h
    rcases bind_trace_mem _ _ _ h with h | ⟨_, _, h⟩
    · simp [emit] at h; simp [h, Event.phase]
    · rw [wrapErr_trace] at h
      simp [setTracerProvider_phase w ev h]
  simp only [observability, bind_def] at h
  split_ifs at h
  · rcases bind_trace_mem _ _ _ h with h | ⟨_, _, h⟩
    · rw [wrapErr_trace] at h
      simp [startPrometheusServer_phase w _ ev h]
    · exact tail ev h
  · rcases bind_trace_mem _ _ _ h with h | ⟨_, _, h⟩
    · simp [pure_def] at h
    · exact tail ev h

theorem frontEnd_phase (w : World) (fl : Flags) (source : RequestSource) (exp : ExperimentJSON) :
    ∀ ev ∈ (frontEnd w fl source exp).trace, ev.phase = 5 := by
  intro ev h
  simp only [frontEnd, bind_def] at h
  split_ifs at h
  · rcases bind_trace_mem _ _ _ h with h | ⟨_, _, h⟩
    · simp [emit] at h; simp [h, Event.phase]
    · cases hn : w.nogui source exp (!fl.quiet) fl.timings fl.failures <;>
        simp [ret, hn, pure_def, fail] at h
  · rcases bind_trace_mem _ _ _ h with h | ⟨_, _, h⟩
    · simp [emit] at h; simp [h, Event.phase]
    · rcases bind_trace_mem _ _ _ h with h | ⟨_, _, h⟩
      · cases hn : w.NewGui source exp <;> simp [check, hn, pure_def, fail] at h
      · rcases bind_trace_mem _ _ _ h with h | ⟨_, _, h⟩
        · simp [emit] at h; simp [h, Event.phase]
        · rcases bind_trace_mem _ _ _ h with h | ⟨_, _, h⟩
          · simp [emit] at h; simp [h, Event.phase]
          · cases hs : w.GuiShow ⟨source, exp⟩ <;> simp [ret, hs, pure_def, fail] at h

/-! ## The shape of a run -/

theorem quietOverride_fields (f : Flags) :
    (quietOverride f).source = f.source ∧ (quietOverride f).sourceParam = f.sourceParam ∧
    (quietOverride f).experimentFile = f.experimentFile ∧
    (quietOverride f).experimentName = f.experimentName ∧
    (quietOverride f).targets = f.targets ∧ (quietOverride f).host = f.host ∧
    (quietOverride f).rate = f.rate ∧ (quietOverride f).concurrency = f.concurrency ∧
    (quietOverride f).duration = f.duration ∧ (quietOverride f).nogui = f.nogui ∧
    (quietOverride f).quiet = f.quiet ∧ (quietOverride f).prometheusAddr = f.prometheusAddr := by
  unfold quietOverride; split <;> simp

theorem afterLoad_of_invalid (w : World) (fl : Flags) (s : RequestSource) (x : ExperimentJSON)
    (e : GoError) (h : w.validateExperiment x = some e) :
    afterLoad w fl s x = ⟨[.validateExperiment x], .error (.errorfW "experiment: " e)⟩ := by
  simp [afterLoad, bind_def, Eff.bind, emit, check, fail, h]

theorem afterLoad_of_valid (w : World) (fl : Flags) (s : RequestSource) (x : ExperimentJSON)
    (h : w.validateExperiment x = none) :
    afterLoad w fl s x =
      ⟨.validateExperiment x :: (Eff.bind (observability w fl) fun _ => frontEnd w fl s x).trace,
        (Eff.bind (observability w fl) fun _ => frontEnd w fl s x).result⟩ := by
  simp [afterLoad, bind_def, Eff.bind, emit, check, pure_def, h]

/-- Every run ends in exactly one of five ways, and its trace is the
concatenation of the traces of the blocks it went through. -/
theorem Run_shape (w : World) (f : Flags) :
    (∃ e, (selectSource w (quietOverride f)).result = .error e ∧
      Run w f = ⟨(selectSource w (quietOverride f)).trace, .error e⟩) ∨
    ∃ s, (selectSource w (quietOverride f)).result = .ok s ∧
      ((∃ e, (loadExperiment w (quietOverride f)).result = .error e ∧
        Run w f = ⟨(selectSource w (quietOverride f)).trace ++
          (loadExperiment w (quietOverride f)).trace, .error e⟩) ∨
      ∃ x, (loadExperiment w (quietOverride f)).result = .ok x ∧
        ((∃ e, w.validateExperiment x = some e ∧
          Run w f = ⟨(selectSource w (quietOverride f)).trace ++
            ((loadExperiment w (quietOverride f)).trace ++ [.validateExperiment x]),
            .error (.errorfW "experiment: " e)⟩) ∨
        (w.validateExperiment x = none ∧
          ((∃ e, (observability w (quietOverride f)).result = .error e ∧
            Run w f = ⟨(selectSource w (quietOverride f)).trace ++
              ((loadExperiment w (quietOverride f)).trace ++
                .validateExperiment x :: (observability w (quietOverride f)).trace),
              .error e⟩) ∨
          ((observability w (quietOverride f)).result = .ok () ∧
            Run w f = ⟨(selectSource w (quietOverride f)).trace ++
              ((loadExperiment w (quietOverride f)).trace ++
                .validateExperiment x :: ((observability w (quietOverride f)).trace ++
                  (frontEnd w (quietOverride f) s x).trace)),
              (frontEnd w (quietOverride f) s x).result⟩))))) := by
  rw [Run_eq]
  generalize quietOverride f = fl
  cases hs : (selectSource w fl).result with
  | error e => exact Or.inl ⟨e, rfl, bind_of_error _ hs⟩
  | ok s =>
    refine Or.inr ⟨s, rfl, ?_⟩
    rw [bind_of_ok _ hs]
    cases hl : (loadExperiment w fl).result with
    | error e =>
      refine Or.inl ⟨e, rfl, ?_⟩
      rw [bind_of_error _ hl]
    | ok x =>
      refine Or.inr ⟨x, rfl, ?_⟩
      rw [bind_of_ok _ hl]
      cases hv : w.validateExperiment x with
      | some e =>
        refine Or.inl ⟨e, rfl, ?_⟩
        rw [afterLoad_of_invalid w fl s x e hv]
      | none =>
        refine Or.inr ⟨rfl, ?_⟩
        rw [afterLoad_of_valid w fl s x hv]
        cases ho : (observability w fl).result with
        | error e =>
          refine Or.inl ⟨e, rfl, ?_⟩
          rw [bind_of_error _ ho]
        | ok u =>
          refine Or.inr ⟨rfl, ?_⟩
          rw [bind_of_ok _ ho]

theorem validate_mem_inv {exp x : ExperimentJSON} {A B C : List Event}
    (h : Event.validateExperiment exp ∈ A ++ (B ++ Event.validateExperiment x :: C))
    (hA : ∀ ev ∈ A, ev.phase = 0) (hB : ∀ ev ∈ B, ev.phase = 1)
    (hC : ∀ ev ∈ C, 3 ≤ ev.phase) : exp = x := by
  simp only [List.mem_append, List.mem_cons] at h
  rcases h with h | h | h | h
  · have := hA _ h; simp [Event.phase] at this
  · have := hB _ h; simp [Event.phase] at this
  · exact Event.validateExperiment.inj h
  · have := hC _ h; simp [Event.phase] at this

theorem obs_fe_phase (w : World) (fl : Flags) (s : RequestSource) (x : ExperimentJSON) :
    ∀ ev ∈ (observability w fl).trace ++ (frontEnd w fl s x).trace, 3 ≤ ev.phase := by
  intro ev h
  rcases List.mem_append.1 h with h | h
  · exact (observability_phase w fl ev h).1
  · rw [frontEnd_phase w fl s x ev h]; decide

/-! ## Claims -/

/-- C1: when `Run` calls `validateExperiment` on the experiment it loaded and
the validator returns an error `e`, `Run` returns the error
`fmt.Errorf("experiment: %w", e)`, which wraps `e`; the call of the validator
is the last event of the run, every event of the run belongs to the choice of
the source, the reading of the file or the validation, and so none of
`startPrometheusServer`, `setTracerProvider`, `nogui`, `NewGui`, `Gui.Show`
is invoked. -/
theorem C1_invalid_experiment_never_starts (w : World) (f : Flags) (exp : ExperimentJSON)
    (e : GoError) (hcall : Event.validateExperiment exp ∈ (Run w f).trace)
    (hbad : w.validateExperiment exp = some e) :
    (Run w f).err = some (.errorfW "experiment: " e) ∧
    (GoError.errorfW "experiment: " e).Unwrap = some e ∧
    (∀ quote, (GoError.errorfW "experiment: " e).Error quote = "experiment: " ++ e.Error quote) ∧
    (Run w f).trace.getLast? = some (.validateExperiment exp) ∧
    (∀ ev ∈ (Run w f).trace, ev.phase ≤ 2) ∧
    (∀ addr, Event.startPrometheusServer addr ∉ (Run w f).trace) ∧
    Event.setTracerProvider ∉ (Run w f).trace ∧
    (∀ s x a b c, Event.nogui s x a b c ∉ (Run w f).trace) ∧
    (∀ s x, Event.NewGui s x ∉ (Run w f).trace) ∧
    (∀ g ms, Event.GuiShow g ms ∉ (Run w f).trace) := by
  have key : (Run w f).err = some (.errorfW "experiment: " e) ∧
      (Run w f).trace.getLast? = some (.validateExperiment exp) ∧
      (∀ ev ∈ (Run w f).trace, ev.phase ≤ 2) := by
    rcases Run_shape w f with ⟨e1, _, hR⟩ | ⟨s, _, ⟨e1, _, hR⟩ | ⟨x, _, ⟨e1, hv, hR⟩ |
      ⟨hv, ⟨e1, _, hR⟩ | ⟨_, hR⟩⟩⟩⟩
    · rw [hR] at hcall
      have := selectSource_phase w _ _ hcall
      simp [Event.phase] at this
    · rw [hR] at hcall
      rcases List.mem_append.1 hcall with h | h
      · have := selectSource_phase w _ _ h
        simp [Event.phase] at this
      · have := loadExperiment_phase w _ _ h
        simp [Event.phase] at this
    · rw [hR] at hcall
      have hx : exp = x := validate_mem_inv hcall (selectSource_phase w _)
        (loadExperiment_phase w _) (by simp)
      subst hx
      rw [hbad] at hv
      cases hv
      rw [hR]
      refine ⟨rfl, ?_, ?_⟩
      · simp [← List.append_assoc]
      · intro ev h
        simp only [List.mem_append, List.mem_singleton] at h
        rcases h with h | h | h
        · rw [selectSource_phase w _ _ h]; decide
        · rw [loadExperiment_phase w _ _ h]; decide
        · rw [h]; exact Nat.le_refl 2
    · rw [hR] at hcall
      have hx : exp = x := validate_mem_inv hcall (selectSource_phase w _)
        (loadExperiment_phase w _) (fun ev h => (observability_phase w _ ev h).1)
      subst hx
      rw [hbad] at hv
      cases hv
    · rw [hR] at hcall
      have hx : exp = x := validate_mem_inv hcall (selectSource_phase w _)
        (loadExperiment_phase w _) (obs_fe_phase w _ s x)
      subst hx
      rw [hbad] at hv
      cases hv
  obtain ⟨h1, h2, h3⟩ := key
  refine ⟨h1, rfl, fun _ => rfl, h2, h3, ?_, ?_, ?_, ?_, ?_⟩
  · intro addr h; have := h3 _ h; simp [Event.phase] at this
  · intro h; have := h3 _ h; simp [Event.phase] at this
  · intro s x a b c h; have := h3 _ h; simp [Event.phase] at this
  · intro s x h; have := h3 _ h; simp [Event.phase] at this
  · intro g ms h; have := h3 _ h; simp [Event.phase] at this

/-- C1, at the default flags in a world whose validator turns the experiment
down: the run stops at the validation. -/
theorem C1_witness :
    (Run strictWorld Flags.default).err =
        some (.errorfW "experiment: " (.leaf "rate must be positive")) ∧
    (Run strictWorld Flags.default).trace.getLast? =
        some (.validateExperiment
          { Name := "adhoc", Rate := 10, Concurrency := 10, Duration := 60,
            Backends := [⟨"http://localhost:8080", ""⟩] }) ∧
    (∀ s x a b c, Event.nogui s x a b c ∉ (Run strictWorld Flags.default).trace) :=
  have h := C1_invalid_experiment_never_starts strictWorld Flags.default
    { Name := "adhoc", Rate := 10, Concurrency := 10, Duration := 60,
      Backends := [⟨"http://localhost:8080", ""⟩] }
    (.leaf "rate must be positive") (by decide) rfl
  ⟨h.1, h.2.2.2.1, h.2.2.2.2.2.2.2.1⟩

theorem frontEnd_nogui (w : World) (fl : Flags) (s : RequestSource) (x : ExperimentJSON)
    (h : fl.nogui = true) :
    frontEnd w fl s x =
      ⟨[.nogui s x (!fl.quiet) fl.timings fl.failures],
        (ret (w.nogui s x (!fl.quiet) fl.timings fl.failures)).result⟩ := by
  cases hn : w.nogui s x (!fl.quiet) fl.timings fl.failures <;>
    simp [frontEnd, h, bind_def, Eff.bind, emit, ret, hn, pure_def, fail]

theorem frontEnd_gui (w : World) (fl : Flags) (s : RequestSource) (x : ExperimentJSON)
    (h : fl.nogui = false) :
    frontEnd w fl s x =
      match w.NewGui s x with
      | some e => ⟨[.NewGui s x], .error (.errorfW "gui: " e)⟩
      | none => ⟨[.NewGui s x, .GuiShow ⟨s, x⟩ 100, .GuiClose ⟨s, x⟩], (ret (w.GuiShow ⟨s, x⟩)).result⟩ := by
  cases hn : w.NewGui s x <;> cases hs : w.GuiShow ⟨s, x⟩ <;>
    simp [frontEnd, h, bind_def, Eff.bind, emit, ret, check, hn, hs, pure_def, fail]

theorem frontEnd_source (w : World) (fl : Flags) (s : RequestSource) (x : ExperimentJSON) :
    (∀ s1 x1 a b c, Event.nogui s1 x1 a b c ∈ (frontEnd w fl s x).trace → s1 = s) ∧
    (∀ s1 x1, Event.NewGui s1 x1 ∈ (frontEnd w fl s x).trace → s1 = s) ∧
    (∀ g ms, Event.GuiShow g ms ∈ (frontEnd w fl s x).trace → g.source = s) := by
  cases hg : fl.nogui
  · rw [frontEnd_gui w fl s x hg]
    cases w.NewGui s x
    · refine ⟨?_, ?_, ?_⟩
      · intro s1 x1 a b c h; simp at h
      · intro s1 x1 h; simp at h; exact h.1
      · intro g ms h; simp at h; rw [h.1]
    · refine ⟨?_, ?_, ?_⟩
      · intro s1 x1 a b c h; simp at h
      · intro s1 x1 h; simp at h; exact h.1
      · intro g ms h; simp at h
  · rw [frontEnd_nogui w fl s x hg]
    refine ⟨?_, ?_, ?_⟩
    · intro s1 x1 a b c h; simp at h; exact h.1
    · intro s1 x1 h; simp at h
    · intro g ms h; simp at h

/-- A front-end event of a run comes from the front-end block, entered with
the source and the experiment of the earlier blocks after a successful
setup. -/
theorem Run_frontEnd_mem (w : World) (f : Flags) (ev : Event) (h : ev ∈ (Run w f).trace)
    (hp : ev.phase = 5) :
    ∃ s x, (selectSource w (quietOverride f)).result = .ok s ∧
      (loadExperiment w (quietOverride f)).result = .ok x ∧
      w.validateExperiment x = none ∧
      (observability w (quietOverride f)).result = .ok () ∧
      ev ∈ (frontEnd w (quietOverride f) s x).trace := by
  have h0 : ∀ ev1 ∈ (selectSource w (quietOverride f)).trace, ev1.phase ≠ 5 := by
    intro ev1 h1; rw [selectSource_phase w _ _ h1]; decide
  have h1 : ∀ ev1 ∈ (loadExperiment w (quietOverride f)).trace, ev1.phase ≠ 5 := by
    intro ev1 h1; rw [loadExperiment_phase w _ _ h1]; decide
  have h3 : ∀ ev1 ∈ (observability w (quietOverride f)).trace, ev1.phase ≠ 5 := by
    intro ev1 h1; have := (observability_phase w _ ev1 h1).2; omega
  rcases Run_shape w f with ⟨e1, _, hR⟩ | ⟨s, hs, ⟨e1, _, hR⟩ | ⟨x, hl, ⟨e1, hv, hR⟩ |
    ⟨hv, ⟨e1, _, hR⟩ | ⟨ho, hR⟩⟩⟩⟩
  · rw [hR] at h
    exact absurd hp (h0 _ h)
  · rw [hR] at h
    rcases List.mem_append.1 h with h | h
    · exact absurd hp (h0 _ h)
    · exact absurd hp (h1 _ h)
  · rw [hR] at h
    simp only [List.mem_append, List.mem_singleton] at h
    rcases h with h | h | h
    · exact absurd hp (h0 _ h)
    · exact absurd hp (h1 _ h)
    · rw [h] at hp; simp [Event.phase] at hp
  · rw [hR] at h
    simp only [List.mem_append, List.mem_cons] at h
    rcases h with h | h | h | h
    · exact absurd hp (h0 _ h)
    · exact absurd hp (h1 _ h)
    · rw [h] at hp; simp [Event.phase] at hp
    · exact absurd hp (h3 _ h)
  · rw [hR] at h
    simp only [List.mem_append, List.mem_cons] at h
    rcases h with h | h | h | h | h
    · exact absurd hp (h0 _ h)
    · exact absurd hp (h1 _ h)
    · rw [h] at hp; simp [Event.phase] at hp
    · exact absurd hp (h3 _ h)
    · exact ⟨s, x, hs, hl, hv, ho, h⟩

/-- The trace of a run starts with the trace of the choice of the source;
what follows belongs to later blocks. -/
theorem Run_trace_split (w : World) (f : Flags) :
    ∃ rest, (Run w f).trace = (selectSource w (quietOverride f)).trace ++ rest ∧
      ∀ ev ∈ rest, 1 ≤ ev.phase := by
  have h1 : ∀ ev1 ∈ (loadExperiment w (quietOverride f)).trace, 1 ≤ ev1.phase := by
    intro ev1 h1; rw [loadExperiment_phase w _ _ h1]
  have h3 : ∀ ev1 ∈ (observability w (quietOverride f)).trace, 1 ≤ ev1.phase := by
    intro ev1 h1; have := (observability_phase w _ ev1 h1).1; omega
  have h5 : ∀ s x, ∀ ev1 ∈ (frontEnd w (quietOverride f) s x).trace, 1 ≤ ev1.phase := by
    intro s x ev1 h1; rw [frontEnd_phase w _ s x ev1 h1]; decide
  rcases Run_shape w f with ⟨e1, _, hR⟩ | ⟨s, hs, ⟨e1, _, hR⟩ | ⟨x, hl, ⟨e1, hv, hR⟩ |
    ⟨hv, ⟨e1, _, hR⟩ | ⟨ho, hR⟩⟩⟩⟩
  · exact ⟨[], by simp [hR], by simp⟩
  · exact ⟨_, by rw [hR], h1⟩
  · refine ⟨_, by rw [hR], ?_⟩
    intro ev h
    simp only [List.mem_append, List.mem_singleton] at h
    rcases h with h | h
    · exact h1 _ h
    · rw [h]; simp [Event.phase]
  · refine ⟨_, by rw [hR], ?_⟩
    intro ev h
    simp only [List.mem_append, List.mem_cons] at h
    rcases h with h | h | h
    · exact h1 _ h
    · rw [h]; simp [Event.phase]
    · exact h3 _ h
  · refine ⟨_, by rw [hR], ?_⟩
    intro ev h
    simp only [List.mem_append, List.mem_cons] at h
    rcases h with h | h | h | h
    · exact h1 _ h
    · rw [h]; simp [Event.phase]
    · exact h3 _ h
    · exact h5 _ _ _ h

theorem selects_of (w : World) (f : Flags) (ctor : Event) (src : RequestSource)
    (ht : (selectSource w (quietOverride f)).trace = [ctor])
    (hr : ∀ s, (selectSource w (quietOverride f)).result = .ok s → s = src) :
    (Run w f).selects ctor src := by
  obtain ⟨rest, hsplit, hrest⟩ := Run_trace_split w f
  rw [ht] at hsplit
  refine ⟨by simp [hsplit], by simpa [hsplit] using hrest, ?_, ?_, ?_⟩
  · intro s x a b c h
    obtain ⟨s1, x1, hs, _, _, _, hm⟩ := Run_frontEnd_mem w f _ h rfl
    rw [← hr s1 hs]
    exact (frontEnd_source w _ s1 x1).1 _ _ _ _ _ hm
  · intro s x h
    obtain ⟨s1, x1, hs, _, _, _, hm⟩ := Run_frontEnd_mem w f _ h rfl
    rw [← hr s1 hs]
    exact (frontEnd_source w _ s1 x1).2.1 _ _ hm
  · intro g ms h
    obtain ⟨s1, x1, hs, _, _, _, hm⟩ := Run_frontEnd_mem w f _ h rfl
    rw [← hr s1 hs]
    exact (frontEnd_source w _ s1 x1).2.2 _ _ hm

/-- C2: `Run` selects the request source once, keyed on `flags.source`:
`"random"` selects `NewRandomRequestSource(sampleRequests)`, `"nginxlog"`
selects `NewNginxLogRequestSource(flags.sourceParam)`, `"-"` selects
`NewStdinRequestSource()`; for every other string `Run` returns the error
`"unsupported source: " + flags.source` and causes no event at all: no
experiment is loaded or validated and no front-end is started. -/
theorem C2_source_selection (w : World) (f : Flags) :
    (f.source = "random" →
      (Run w f).selects .NewRandomRequestSource .NewRandomRequestSource) ∧
    (f.source = "nginxlog" →
      (Run w f).selects (.NewNginxLogRequestSource f.sourceParam)
        (.NewNginxLogRequestSource f.sourceParam)) ∧
    (f.source = "-" →
      (Run w f).selects .NewStdinRequestSource .NewStdinRequestSource) ∧
    (f.source ≠ "random" → f.source ≠ "nginxlog" → f.source ≠ "-" →
      Run w f = ⟨[], .error (.errorfS "unsupported source: " f.source)⟩ ∧
      ∀ quote, (GoError.errorfS "unsupported source: " f.source).Error quote =
        "unsupported source: " ++ f.source) := by
  obtain ⟨hsrc, hpar, -⟩ := quietOverride_fields f
  refine ⟨?_, ?_, ?_, ?_⟩
  · intro h
    apply selects_of <;>
      simp [selectSource, hsrc, h, bind_def, Eff.bind, emit, pure_def]
  · intro h
    apply selects_of <;>
      cases hn : w.NewNginxLogRequestSource f.sourceParam <;>
      simp [selectSource, hsrc, hpar, h, bind_def, Eff.bind, emit, pure_def, check, fail, hn]
  · intro h
    apply selects_of <;>
      simp [selectSource, hsrc, h, bind_def, Eff.bind, emit, pure_def]
  · intro h1 h2 h3
    refine ⟨?_, fun _ => rfl⟩
    rw [Run_eq]
    simp [selectSource, hsrc, h1, h2, h3, Eff.bind, fail]

/-- C2, at four source strings in the calm world. -/
theorem C2_witness :
    (Run calmWorld { Flags.default with source := "random" }).selects
      .NewRandomRequestSource .NewRandomRequestSource ∧
    (Run calmWorld { Flags.default with source := "nginxlog", sourceParam := "access.log" }).selects
      (.NewNginxLogRequestSource "access.log") (.NewNginxLogRequestSource "access.log") ∧
    (Run calmWorld Flags.default).selects .NewStdinRequestSource .NewStdinRequestSource ∧
    Run calmWorld { Flags.default with source := "stdin" } =
      ⟨[], .error (.errorfS "unsupported source: " "stdin")⟩ :=
  ⟨(C2_source_selection calmWorld { Flags.default with source := "random" }).1 rfl,
    (C2_source_selection calmWorld
      { Flags.default with source := "nginxlog", sourceParam := "access.log" }).2.1 rfl,
    (C2_source_selection calmWorld Flags.default).2.2.1 rfl,
    ((C2_source_selection calmWorld { Flags.default with source := "stdin" }).2.2.2
      (by decide) (by decide) (by decide)).1⟩

/-! ## The experiment a run loads -/

theorem foldl_append_singleton {α β : Type} (g : α → β) (l : List α) (init : List β) :
    l.foldl (fun acc a => acc ++ [g a]) init = init ++ l.map g := by
  induction l generalizing init with
  | nil => simp
  | cons a l ih => simp [ih]

theorem loadExperiment_of_flags (w : World) (fl : Flags) (h : fl.experimentFile = "") :
    loadExperiment w fl =
      ⟨[], .ok { Name := fl.experimentName, Rate := fl.rate, Concurrency := fl.concurrency,
                 Duration := fl.duration,
                 Backends := fl.targets.map (fun be => { BaseURL := be, Host := fl.host }) }⟩ := by
  simp [loadExperiment, h, pure_def, ExperimentJSON.zero, foldl_append_singleton]

theorem loadExperiment_of_file (w : World) (fl : Flags) (h : fl.experimentFile ≠ "") :
    loadExperiment w fl =
      match w.osOpen fl.experimentFile with
      | .error e =>
        ⟨[.readExperimentFile fl.experimentFile, .osOpen fl.experimentFile],
          .error (.errorfW "read experiment file: " (.errorfW "open: " e))⟩
      | .ok contents =>
        match (w.jsonDecode contents).2 with
        | some e =>
          ⟨[.readExperimentFile fl.experimentFile, .osOpen fl.experimentFile,
              .jsonDecode fl.experimentFile, .fileClose fl.experimentFile],
            .error (.errorfW "read experiment file: " (.errorfW "parse: " e))⟩
        | none =>
          ⟨[.readExperimentFile fl.experimentFile, .osOpen fl.experimentFile,
              .jsonDecode fl.experimentFile, .fileClose fl.experimentFile],
            .ok ((w.jsonDecode contents).1.apply ExperimentJSON.zero)⟩ := by
  simp only [loadExperiment, h, ne_eq, not_false_eq_true, if_true, readExperimentFile]
  cases ho : w.osOpen fl.experimentFile with
  | error e => simp [wrapErrV]
  | ok contents =>
    cases hd : (w.jsonDecode contents).2 <;> simp [wrapErrV, hd]

/-- The experiment a run validates is the one its loading block produced. -/
theorem Run_validate_mem (w : World) (f : Flags) (exp : ExperimentJSON)
    (hcall : Event.validateExperiment exp ∈ (Run w f).trace) :
    (loadExperiment w (quietOverride f)).result = .ok exp := by
  rcases Run_shape w f with ⟨e1, _, hR⟩ | ⟨s, _, ⟨e1, _, hR⟩ | ⟨x, hl, ⟨e1, hv, hR⟩ |
    ⟨hv, ⟨e1, _, hR⟩ | ⟨_, hR⟩⟩⟩⟩
  · rw [hR] at hcall
    have := selectSource_phase w _ _ hcall
    simp [Event.phase] at this
  · rw [hR] at hcall
    rcases List.mem_append.1 hcall with h | h
    · have := selectSource_phase w _ _ h
      simp [Event.phase] at this
    · have := loadExperiment_phase w _ _ h
      simp [Event.phase] at this
  · rw [hR] at hcall
    rw [validate_mem_inv hcall (selectSource_phase w _) (loadExperiment_phase w _) (by simp)]
    exact hl
  · rw [hR] at hcall
    rw [validate_mem_inv hcall (selectSource_phase w _) (loadExperiment_phase w _)
      (fun ev h => (observability_phase w _ ev h).1)]
    exact hl
  · rw [hR] at hcall
    rw [validate_mem_inv hcall (selectSource_phase w _) (loadExperiment_phase w _)
      (obs_fe_phase w _ s x)]
    exact hl

/-- C3: with no experiment file, the experiment `Run` hands to
`validateExperiment` is assembled from the flags: its name, rate, concurrency
and duration are those flags, and its backends are the targets in their
order, the i-th with `BaseURL` the i-th target and `Host` the host flag. -/
theorem C3_experiment_from_flags (w : World) (f : Flags) (exp : ExperimentJSON)
    (hfile : f.experimentFile = "")
    (hcall : Event.validateExperiment exp ∈ (Run w f).trace) :
    exp.Name = f.experimentName ∧ exp.Rate = f.rate ∧ exp.Concurrency = f.concurrency ∧
    exp.Duration = f.duration ∧ exp.Backends.length = f.targets.length ∧
    (∀ i : Nat, exp.Backends[i]? =
      (f.targets[i]?).map (fun be => ({ BaseURL := be, Host := f.host } : BackendJSON))) ∧
    (∀ i : Nat, (exp.Backends[i]?).map BackendJSON.BaseURL = f.targets[i]?) ∧
    (∀ b ∈ exp.Backends, b.Host = f.host) := by
  have hl := Run_validate_mem w f exp hcall
  obtain ⟨-, -, hF, hN, hT, hH, hR, hC, hD, -⟩ := quietOverride_fields f
  rw [loadExperiment_of_flags w _ (hF.trans hfile)] at hl
  simp only [Except.ok.injEq] at hl
  subst hl
  refine ⟨hN, hR, hC, hD, by simp [hT], fun i => by simp [hT, hH], fun i => ?_, ?_⟩
  · simp only [List.getElem?_map, Option.map_map, hT]
    cases f.targets[i]? <;> rfl
  · intro b hb
    simp only [List.mem_map] at hb
    obtain ⟨_, _, rfl⟩ := hb
    exact hH

/-- C3, at three targets and a host in the calm world. -/
theorem C3_witness :
    (Run calmWorld { Flags.default with targets := ["http://a", "http://b", "http://a"],
                                        host := "h", rate := 3 }).trace.getLast? ≠ none ∧
    (∀ i : Nat, ([⟨"http://a", "h"⟩, ⟨"http://b", "h"⟩, ⟨"http://a", "h"⟩] : List BackendJSON)[i]? =
      ((["http://a", "http://b", "http://a"] : List String)[i]?).map
        (fun be => ({ BaseURL := be, Host := "h" } : BackendJSON))) :=
  ⟨by decide,
    (C3_experiment_from_flags calmWorld
      { Flags.default with targets := ["http://a", "http://b", "http://a"], host := "h", rate := 3 }
      { Name := "adhoc", Rate := 3, Concurrency := 10, Duration := 60,
        Backends := [⟨"http://a", "h"⟩, ⟨"http://b", "h"⟩, ⟨"http://a", "h"⟩] }
      rfl (by decide)).2.2.2.2.2.1⟩

/-- C9: at the declared defaults of every flag, in every world, `Run` reaches
the validation, and the experiment it validates is the one below: exactly one
backend, whose `BaseURL` is `http://localhost:8080`, a text with the scheme
`http` and so an absolute URL, and strictly positive rate, concurrency and
duration. -/
theorem C9_default_configuration (w : World) :
    Event.validateExperiment
        { Name := "adhoc", Rate := 10, Concurrency := 10, Duration := 60,
          Backends := [{ BaseURL := "http://localhost:8080", Host := "" }] }
      ∈ (Run w Flags.default).trace ∧
    ∀ exp, Event.validateExperiment exp ∈ (Run w Flags.default).trace →
      exp.Backends.length = 1 ∧
      exp.Backends.map BackendJSON.BaseURL = ["http://localhost:8080"] ∧
      (∀ b ∈ exp.Backends, getScheme b.BaseURL = some "http") ∧
      0 < exp.Rate ∧ 0 < exp.Concurrency ∧ 0 < exp.Duration ∧
      exp.Rate = 10 ∧ exp.Concurrency = 10 ∧ exp.Duration = 60 := by
  constructor
  · rcases Run_shape w Flags.default with ⟨e1, hs, _⟩ | ⟨s, _, ⟨e1, hl, _⟩ | ⟨x, hl, hrest⟩⟩
    · simp [selectSource, quietOverride, Flags.default, bind_def, Eff.bind, emit, pure_def] at hs
    · rw [loadExperiment_of_flags w _ rfl] at hl
      simp at hl
    · rw [loadExperiment_of_flags w _ rfl] at hl
      simp only [Except.ok.injEq] at hl
      subst hl
      rcases hrest with ⟨e1, _, hR⟩ | ⟨_, ⟨e1, _, hR⟩ | ⟨_, hR⟩⟩ <;> rw [hR] <;>
        exact List.mem_append_right _ (List.mem_append_right _ (List.mem_cons_self _ _))
  · intro exp hcall
    have hl := Run_validate_mem w Flags.default exp hcall
    rw [loadExperiment_of_flags w _ rfl] at hl
    simp only [Except.ok.injEq] at hl
    subst hl
    refine ⟨rfl, rfl, ?_, by decide, by decide, by decide, rfl, rfl, rfl⟩
    intro b hb
    have hb1 : b = ⟨"http://localhost:8080", ""⟩ := by
      simpa [quietOverride, Flags.default] using hb
    subst hb1
    decide

/-- A run that entered the loading block and failed there returns the
error of that block and goes no further. -/
theorem Run_of_load_error (w : World) (f : Flags) (ev : Event) (e : GoError)
    (hev : ev ∈ (Run w f).trace) (hp : ev.phase = 1)
    (hl : (loadExperiment w (quietOverride f)).result = .error e) :
    (Run w f).err = some e ∧ ∀ ev1 ∈ (Run w f).trace, ev1.phase ≤ 1 := by
  rcases Run_shape w f with ⟨e1, _, hR⟩ | ⟨s, _, ⟨e1, hl1, hR⟩ | ⟨x, hl1, _⟩⟩
  · rw [hR] at hev
    have := selectSource_phase w _ _ hev
    omega
  · rw [hl] at hl1
    cases hl1
    rw [hR]
    refine ⟨rfl, ?_⟩
    intro ev1 h1
    rcases List.mem_append.1 h1 with h1 | h1
    · rw [selectSource_phase w _ _ h1]; decide
    · rw [loadExperiment_phase w _ _ h1]
  · rw [hl] at hl1
    cases hl1

/-- An event of the loading block in the trace of a run is in the trace of
that block. -/
theorem Run_load_mem (w : World) (f : Flags) (ev : Event) (hev : ev ∈ (Run w f).trace)
    (hp : ev.phase = 1) : ev ∈ (loadExperiment w (quietOverride f)).trace := by
  have h0 : ∀ ev1 ∈ (selectSource w (quietOverride f)).trace, ev1.phase ≠ 1 := by
    intro ev1 h1; rw [selectSource_phase w _ _ h1]; decide
  have h2 : ∀ x, ev ≠ Event.validateExperiment x := by
    intro x h; rw [h] at hp; simp [Event.phase] at hp
  have h3 : ∀ ev1 ∈ (observability w (quietOverride f)).trace, ev1.phase ≠ 1 := by
    intro ev1 h1; have := (observability_phase w _ ev1 h1).1; omega
  have h5 : ∀ s x, ∀ ev1 ∈ (frontEnd w (quietOverride f) s x).trace, ev1.phase ≠ 1 := by
    intro s x ev1 h1; rw [frontEnd_phase w _ s x ev1 h1]; decide
  rcases Run_shape w f with ⟨e1, _, hR⟩ | ⟨s, hs, ⟨e1, _, hR⟩ | ⟨x, hl, ⟨e1, hv, hR⟩ |
    ⟨hv, ⟨e1, _, hR⟩ | ⟨ho, hR⟩⟩⟩⟩
  · rw [hR] at hev
    exact absurd hp (h0 _ hev)
  · rw [hR] at hev
    rcases List.mem_append.1 hev with h | h
    · exact absurd hp (h0 _ h)
    · exact h
  · rw [hR] at hev
    simp only [List.mem_append, List.mem_singleton] at hev
    rcases hev with h | h | h
    · exact absurd hp (h0 _ h)
    · exact h
    · exact absurd h (h2 x)
  · rw [hR] at hev
    simp only [List.mem_append, List.mem_cons] at hev
    rcases hev with h | h | h | h
    · exact absurd hp (h0 _ h)
    · exact h
    · exact absurd h (h2 x)
    · exact absurd hp (h3 _ h)
  · rw [hR] at hev
    simp only [List.mem_append, List.mem_cons] at hev
    rcases hev with h | h | h | h | h
    · exact absurd hp (h0 _ h)
    · exact h
    · exact absurd h (h2 x)
    · exact absurd hp (h3 _ h)
    · exact absurd hp (h5 _ _ _ h)

/-- When a run opens the experiment file, the file name is not empty. -/
theorem Run_osOpen_mem (w : World) (f : Flags)
    (hev : Event.osOpen f.experimentFile ∈ (Run w f).trace) : f.experimentFile ≠ "" := by
  intro hfile
  have hF := (quietOverride_fields f).2.2.1
  have h := Run_load_mem w f _ hev rfl
  rw [loadExperiment_of_flags w _ (hF.trans hfile)] at h
  simp at h

/-- C5: failures of the request source and of the loading of the experiment
are returned by `Run`, wrapped, and end the run.  If
`NewNginxLogRequestSource` fails with `e`, the run is that one call and
returns `"nginx source: " + e`.  If `Run` opens the experiment file and
`os.Open` fails with `e`, `readExperimentFile` returns `"open: " + e` and `Run`
returns `"read experiment file: "` wrapping that; if the file opens and the
decoder fails with `e`, the same with `"parse: "`.  In both cases every event
of the run belongs to the choice of the source or to the reading of the file:
`validateExperiment` is never called and neither is any later step. -/
theorem C5_source_and_loading_failures (w : World) (f : Flags) :
    (∀ e, f.source = "nginxlog" → w.NewNginxLogRequestSource f.sourceParam = some e →
      Run w f = ⟨[.NewNginxLogRequestSource f.sourceParam],
        .error (.errorfW "nginx source: " e)⟩) ∧
    (∀ e, Event.osOpen f.experimentFile ∈ (Run w f).trace →
      w.osOpen f.experimentFile = .error e →
      (∀ exp0, (readExperimentFile w f.experimentFile exp0).2.2 = some (.errorfW "open: " e)) ∧
      (Run w f).err = some (.errorfW "read experiment file: " (.errorfW "open: " e)) ∧
      (∀ ev ∈ (Run w f).trace, ev.phase ≤ 1) ∧
      (∀ x, Event.validateExperiment x ∉ (Run w f).trace)) ∧
    (∀ contents e, Event.osOpen f.experimentFile ∈ (Run w f).trace →
      w.osOpen f.experimentFile = .ok contents → (w.jsonDecode contents).2 = some e →
      (∀ exp0, (readExperimentFile w f.experimentFile exp0).2.2 = some (.errorfW "parse: " e)) ∧
      (Run w f).err = some (.errorfW "read experiment file: " (.errorfW "parse: " e)) ∧
      (∀ ev ∈ (Run w f).trace, ev.phase ≤ 1) ∧
      (∀ x, Event.validateExperiment x ∉ (Run w f).trace)) := by
  obtain ⟨hsrc, hpar, hF, -⟩ := quietOverride_fields f
  refine ⟨?_, ?_, ?_⟩
  · intro e hs hn
    rw [Run_eq]
    simp [selectSource, hsrc, hpar, hs, hn, bind_def, Eff.bind, emit, check, fail]
  · intro e hev hopen
    have hfile := Run_osOpen_mem w f hev
    have hl : (loadExperiment w (quietOverride f)).result =
        .error (.errorfW "read experiment file: " (.errorfW "open: " e)) := by
      rw [loadExperiment_of_file w _ (by rw [hF]; exact hfile), hF, hopen]
    obtain ⟨h1, h2⟩ := Run_of_load_error w f _ _ hev rfl hl
    refine ⟨fun exp0 => by simp [readExperimentFile, hopen], h1, h2, ?_⟩
    intro x hx
    have := h2 _ hx
    simp [Event.phase] at this
  · intro contents e hev hopen hdec
    have hfile := Run_osOpen_mem w f hev
    have hl : (loadExperiment w (quietOverride f)).result =
        .error (.errorfW "read experiment file: " (.errorfW "parse: " e)) := by
      rw [loadExperiment_of_file w _ (by rw [hF]; exact hfile), hF, hopen]
      simp only [hdec]
    obtain ⟨h1, h2⟩ := Run_of_load_error w f _ _ hev rfl hl
    refine ⟨fun exp0 => by simp [readExperimentFile, hopen, hdec], h1, h2, ?_⟩
    intro x hx
    have := h2 _ hx
    simp [Event.phase] at this

/-- C5, in three worlds: a failing nginx source, a missing experiment file and
an experiment file that is not JSON. -/
theorem C5_witness :
    Run { calmWorld with NewNginxLogRequestSource := fun _ => some (.leaf "open access.log") }
        { Flags.default with source := "nginxlog", sourceParam := "access.log" } =
      ⟨[.NewNginxLogRequestSource "access.log"],
        .error (.errorfW "nginx source: " (.leaf "open access.log"))⟩ ∧
    (Run calmWorld { Flags.default with experimentFile := "missing.json" }).err =
      some (.errorfW "read experiment file: " (.errorfW "open: " (.leaf "no such file"))) ∧
    (Run calmWorld { Flags.default with experimentFile := "bad.json" }).err =
      some (.errorfW "read experiment file: " (.errorfW "parse: " (.leaf "invalid character"))) :=
  ⟨(C5_source_and_loading_failures
      { calmWorld with NewNginxLogRequestSource := fun _ => some (.leaf "open access.log") }
      { Flags.default with source := "nginxlog", sourceParam := "access.log" }).1
      (.leaf "open access.log") rfl rfl,
    ((C5_source_and_loading_failures calmWorld
      { Flags.default with experimentFile := "missing.json" }).2.1
      (.leaf "no such file") (by decide) rfl).2.1,
    ((C5_source_and_loading_failures calmWorld
      { Flags.default with experimentFile := "bad.json" }).2.2
      "not json" (.leaf "invalid character") (by decide) rfl rfl).2.1⟩

/-! ## The end of the setup -/

theorem loop_events (P : Event → Prop) (w : World) (h1 : P .otlptracegrpcNew) (h2 : P .jaegerNew)
    (h3 : P .zipkinNew) (l : List String) :
    ∀ (exporters : List SpanExporter) (tr : List Event), (∀ ev ∈ tr, P ev) →
      ∀ ev ∈ (buildTracerExporters.loop w l exporters tr).1, P ev := by
  induction l with
  | nil => intro exporters tr htr ev h; exact htr ev (by simpa [buildTracerExporters.loop] using h)
  | cons s rest ih =>
    intro exporters tr htr ev h
    have hext : ∀ (e0 ev : Event), ev ∈ tr ++ [e0] → P e0 → P ev := by
      intro e0 ev hev h0
      rcases List.mem_append.1 hev with hev | hev
      · exact htr ev hev
      · simp at hev; rw [hev]; exact h0
    simp only [buildTracerExporters.loop] at h
    split_ifs at h
    · split at h
      · exact hext _ ev h h1
      · exact ih _ _ (fun ev hev => hext Event.otlptracegrpcNew ev hev h1) ev h
    · split at h
      · exact hext _ ev h h2
      · exact ih _ _ (fun ev hev => hext Event.jaegerNew ev hev h2) ev h
    · split at h
      · exact hext _ ev h h3
      · exact ih _ _ (fun ev hev => hext Event.zipkinNew ev hev h3) ev h
    · exact htr ev h

theorem buildTracerExporters_not_set (w : World) (xs : List SpanExporter) :
    Event.otelSetTracerProvider xs ∉ (buildTracerExporters w).1 := by
  intro h
  simp only [buildTracerExporters] at h
  split_ifs at h
  · simp at h
  · exact loop_events (fun ev => ev ≠ Event.otelSetTracerProvider xs) w (by simp) (by simp)
      (by simp) _ _ _ (by simp) _ h rfl

theorem setTracerProvider_set_mem (w : World) (xs : List SpanExporter)
    (h : Event.otelSetTracerProvider xs ∈ (setTracerProvider w).trace) :
    (setTracerProvider w).result = .ok () := by
  simp only [setTracerProvider, bind_def] at h ⊢
  cases hb : (buildTracerExporters w).2.2 with
  | none => simp [Eff.bind, emit, call, hb]
  | some e =>
    exfalso
    simp [Eff.bind, emit, call, hb] at h
    exact buildTracerExporters_not_set w xs h

theorem observability_set_mem (w : World) (fl : Flags) (xs : List SpanExporter)
    (h : Event.otelSetTracerProvider xs ∈ (observability w fl).trace) :
    (observability w fl).result = .ok () := by
  have tail : ∀ m : Eff Unit, (∀ ev ∈ m.trace, ev.phase = 3) →
      Event.otelSetTracerProvider xs ∈ (Eff.bind m fun _ =>
        Eff.bind (emit Event.otelSetTextMapPropagator) fun _ =>
          wrapErr "set tracer provider: " (setTracerProvider w)).trace →
      (Eff.bind m fun _ =>
        Eff.bind (emit Event.otelSetTextMapPropagator) fun _ =>
          wrapErr "set tracer provider: " (setTracerProvider w)).result = .ok () := by
    intro m hm h
    cases hr : m.result with
    | error e =>
      rw [bind_of_error _ hr] at h
      have := hm _ h
      simp [Event.phase] at this
    | ok u =>
      rw [bind_of_ok _ hr] at h ⊢
      simp only [List.mem_append] at h
      rcases h with h | h
      · have := hm _ h
        simp [Event.phase] at this
      · rcases bind_trace_mem _ _ _ h with h | ⟨_, _, h⟩
        · simp [emit] at h
        · rw [wrapErr_trace] at h
          have hok := setTracerProvider_set_mem w xs h
          simp [Eff.bind, emit, wrapErr, hok]
  simp only [observability, bind_def] at h ⊢
  split_ifs at h ⊢
  · exact tail _ (by rw [wrapErr_trace]; exact startPrometheusServer_phase w _) h
  · exact tail _ (by simp [pure_def]) h

/-- A run whose setup reached `otel.SetTracerProvider` goes on to the
front-end block, and ends as that block ends. -/
theorem Run_setup_done (w : World) (f : Flags) (xs : List SpanExporter)
    (h : Event.otelSetTracerProvider xs ∈ (Run w f).trace) :
    ∃ s x pre, (∀ ev ∈ pre, ev.phase ≤ 4) ∧
      Run w f = ⟨pre ++ (frontEnd w (quietOverride f) s x).trace,
        (frontEnd w (quietOverride f) s x).result⟩ := by
  have h0 : ∀ ev1 ∈ (selectSource w (quietOverride f)).trace, ev1.phase ≤ 4 := by
    intro ev1 h1; rw [selectSource_phase w _ _ h1]; decide
  have h1 : ∀ ev1 ∈ (loadExperiment w (quietOverride f)).trace, ev1.phase ≤ 4 := by
    intro ev1 h1; rw [loadExperiment_phase w _ _ h1]; decide
  have h3 : ∀ ev1 ∈ (observability w (quietOverride f)).trace, ev1.phase ≤ 4 := by
    intro ev1 h1; exact (observability_phase w _ ev1 h1).2
  have n0 : Event.otelSetTracerProvider xs ∉ (selectSource w (quietOverride f)).trace := by
    intro h; have := selectSource_phase w _ _ h; simp [Event.phase] at this
  have n1 : Event.otelSetTracerProvider xs ∉ (loadExperiment w (quietOverride f)).trace := by
    intro h; have := loadExperiment_phase w _ _ h; simp [Event.phase] at this
  rcases Run_shape w f with ⟨e1, _, hR⟩ | ⟨s, hs, ⟨e1, _, hR⟩ | ⟨x, hl, ⟨e1, hv, hR⟩ |
    ⟨hv, ⟨e1, ho, hR⟩ | ⟨ho, hR⟩⟩⟩⟩
  · rw [hR] at h
    exact absurd h n0
  · rw [hR] at h
    rcases List.mem_append.1 h with h | h
    · exact absurd h n0
    · exact absurd h n1
  · rw [hR] at h
    simp only [List.mem_append, List.mem_singleton] at h
    rcases h with h | h | h
    · exact absurd h n0
    · exact absurd h n1
    · cases h
  · rw [hR] at h
    simp only [List.mem_append, List.mem_cons] at h
    rcases h with h | h | h | h
    · exact absurd h n0
    · exact absurd h n1
    · cases h
    · rw [observability_set_mem w _ xs h] at ho
      cases ho
  · refine ⟨s, x, (selectSource w (quietOverride f)).trace ++
      ((loadExperiment w (quietOverride f)).trace ++
        .validateExperiment x :: (observability w (quietOverride f)).trace), ?_, ?_⟩
    · intro ev hev
      simp only [List.mem_append, List.mem_cons] at hev
      rcases hev with h | h | h | h
      · exact h0 _ h
      · exact h1 _ h
      · rw [h]; simp [Event.phase]
      · exact h3 _ h
    · rw [hR]
      simp

/-! ## Which flags a block reads -/

theorem selectSource_congr (w : World) (fl1 fl2 : Flags) (h1 : fl1.source = fl2.source)
    (h2 : fl1.sourceParam = fl2.sourceParam) : selectSource w fl1 = selectSource w fl2 := by
  simp only [selectSource, h1, h2]

theorem loadExperiment_congr_file (w : World) (fl1 fl2 : Flags)
    (h1 : fl1.experimentFile = fl2.experimentFile) (h : fl1.experimentFile ≠ "") :
    loadExperiment w fl1 = loadExperiment w fl2 := by
  rw [loadExperiment_of_file w fl1 h, loadExperiment_of_file w fl2 (h1 ▸ h), h1]

theorem observability_congr (w : World) (fl1 fl2 : Flags)
    (h : fl1.prometheusAddr = fl2.prometheusAddr) : observability w fl1 = observability w fl2 := by
  simp only [observability, h]

theorem frontEnd_congr (w : World) (fl1 fl2 : Flags) (s : RequestSource) (x : ExperimentJSON)
    (h1 : fl1.nogui = fl2.nogui) (h2 : fl1.quiet = fl2.quiet) (h3 : fl1.timings = fl2.timings)
    (h4 : fl1.failures = fl2.failures) : frontEnd w fl1 s x = frontEnd w fl2 s x := by
  simp only [frontEnd, h1, h2, h3, h4]

theorem frontEnd_congr_gui (w : World) (fl1 fl2 : Flags) (s : RequestSource) (x : ExperimentJSON)
    (h1 : fl1.nogui = false) (h2 : fl2.nogui = false) : frontEnd w fl1 s x = frontEnd w fl2 s x := by
  rw [frontEnd_gui w fl1 s x h1, frontEnd_gui w fl2 s x h2]

theorem Run_congr (w : World) (f1 f2 : Flags)
    (hsel : selectSource w (quietOverride f1) = selectSource w (quietOverride f2))
    (hload : loadExperiment w (quietOverride f1) = loadExperiment w (quietOverride f2))
    (hobs : observability w (quietOverride f1) = observability w (quietOverride f2))
    (hfe : ∀ s x, frontEnd w (quietOverride f1) s x = frontEnd w (quietOverride f2) s x) :
    Run w f1 = Run w f2 := by
  rw [Run_eq, Run_eq, hsel, hload]
  simp only [afterLoad, hobs, hfe]

theorem quietOverride_flags (f : Flags) :
    (f.quiet = true → (quietOverride f).timings = false ∧ (quietOverride f).failures = false) ∧
    (f.quiet = false → (quietOverride f).timings = f.timings ∧
      (quietOverride f).failures = f.failures) := by
  unfold quietOverride
  constructor <;> intro h <;> simp [h]

theorem err_ret (t : List Event) (o : Option GoError) :
    (⟨t, (ret o).result⟩ : Eff Unit).err = o := by
  cases o <;> rfl

theorem frontEnd_exp (w : World) (fl : Flags) (s : RequestSource) (x : ExperimentJSON) :
    (∀ s1 x1 a b c, Event.nogui s1 x1 a b c ∈ (frontEnd w fl s x).trace → x1 = x) ∧
    (∀ s1 x1, Event.NewGui s1 x1 ∈ (frontEnd w fl s x).trace → x1 = x) ∧
    (∀ g ms, Event.GuiShow g ms ∈ (frontEnd w fl s x).trace → g.exp = x) := by
  cases hg : fl.nogui
  · rw [frontEnd_gui w fl s x hg]
    cases w.NewGui s x
    · refine ⟨?_, ?_, ?_⟩
      · intro s1 x1 a b c h; simp at h
      · intro s1 x1 h; simp at h; exact h.2
      · intro g ms h; simp at h; rw [h.1]
    · refine ⟨?_, ?_, ?_⟩
      · intro s1 x1 a b c h; simp at h
      · intro s1 x1 h; simp at h; exact h.2
      · intro g ms h; simp at h
  · rw [frontEnd_nogui w fl s x hg]
    refine ⟨?_, ?_, ?_⟩
    · intro s1 x1 a b c h; simp at h; exact h.2.1
    · intro s1 x1 h; simp at h
    · intro g ms h; simp at h

/-- C6: in non-GUI mode, after a setup that reached `otel.SetTracerProvider`,
the last call of `Run` is `nogui` and `Run` returns what it returns; with
`quiet` set, its three boolean arguments are false whatever `timings` and
`failures` are, and with `quiet` unset they are true, `timings` and
`failures`.  In GUI mode the whole run, and so the calls of `NewGui` and
`Show`, is the same for every value of `quiet`, `timings` and `failures`. -/
theorem C6_quiet_overrides (w : World) (f : Flags) :
    (∀ xs, f.nogui = true → f.quiet = true →
      Event.otelSetTracerProvider xs ∈ (Run w f).trace →
      ∃ s x, (Run w f).trace.getLast? = some (.nogui s x false false false) ∧
        (Run w f).err = w.nogui s x false false false ∧
        ∀ s1 x1 a b c, Event.nogui s1 x1 a b c ∈ (Run w f).trace →
          a = false ∧ b = false ∧ c = false) ∧
    (∀ xs, f.nogui = true → f.quiet = false →
      Event.otelSetTracerProvider xs ∈ (Run w f).trace →
      ∃ s x, (Run w f).trace.getLast? = some (.nogui s x true f.timings f.failures) ∧
        (Run w f).err = w.nogui s x true f.timings f.failures ∧
        ∀ s1 x1 a b c, Event.nogui s1 x1 a b c ∈ (Run w f).trace →
          a = true ∧ b = f.timings ∧ c = f.failures) ∧
    (∀ q t u, f.nogui = false →
      Run w { f with quiet := q, timings := t, failures := u } = Run w f) := by
  have hf := quietOverride_fields f
  have hng : (quietOverride f).nogui = f.nogui := hf.2.2.2.2.2.2.2.2.2.1
  have hq : (quietOverride f).quiet = f.quiet := hf.2.2.2.2.2.2.2.2.2.2.1
  have main : ∀ xs, f.nogui = true → Event.otelSetTracerProvider xs ∈ (Run w f).trace →
      ∃ s x, (Run w f).trace.getLast? =
          some (.nogui s x (!f.quiet) (quietOverride f).timings (quietOverride f).failures) ∧
        (Run w f).err = w.nogui s x (!f.quiet) (quietOverride f).timings
          (quietOverride f).failures ∧
        ∀ s1 x1 a b c, Event.nogui s1 x1 a b c ∈ (Run w f).trace →
          a = (!f.quiet) ∧ b = (quietOverride f).timings ∧ c = (quietOverride f).failures := by
    intro xs hn hset
    obtain ⟨s, x, pre, hpre, hR⟩ := Run_setup_done w f xs hset
    rw [frontEnd_nogui w _ s x (hng.trans hn), hq] at hR
    refine ⟨s, x, ?_, ?_, ?_⟩
    · rw [hR]; simp
    · rw [hR]; exact err_ret _ _
    · intro s1 x1 a b c h
      rw [hR] at h
      simp only [List.mem_append, List.mem_singleton] at h
      rcases h with h | h
      · have := hpre _ h
        simp [Event.phase] at this
      · simp only [Event.nogui.injEq] at h
        exact ⟨h.2.2.1, h.2.2.2.1, h.2.2.2.2⟩
  refine ⟨?_, ?_, ?_⟩
  · intro xs hn hqt hset
    obtain ⟨ht, hfl⟩ := (quietOverride_flags f).1 hqt
    have := main xs hn hset
    simpa only [ht, hfl, hqt, Bool.not_true] using this
  · intro xs hn hqf hset
    obtain ⟨ht, hfl⟩ := (quietOverride_flags f).2 hqf
    have := main xs hn hset
    simpa only [ht, hfl, hqf, Bool.not_false] using this
  · intro q t u hn
    have hg := quietOverride_fields { f with quiet := q, timings := t, failures := u }
    apply Run_congr
    · exact selectSource_congr w _ _ (hg.1.trans hf.1.symm) (hg.2.1.trans hf.2.1.symm)
    · cases hfile : decide (f.experimentFile = "")
      · have hne : f.experimentFile ≠ "" := by simpa using hfile
        exact loadExperiment_congr_file w _ _ (hg.2.2.1.trans hf.2.2.1.symm)
          (by rw [hg.2.2.1]; exact hne)
      · have he : f.experimentFile = "" := by simpa using hfile
        rw [loadExperiment_of_flags w _ (hg.2.2.1.trans he),
          loadExperiment_of_flags w _ (hf.2.2.1.trans he)]
        simp only [hg.2.2.2.1, hg.2.2.2.2.1, hg.2.2.2.2.2.1, hg.2.2.2.2.2.2.1,
          hg.2.2.2.2.2.2.2.1, hg.2.2.2.2.2.2.2.2.1, hf.2.2.2.1, hf.2.2.2.2.1, hf.2.2.2.2.2.1,
          hf.2.2.2.2.2.2.1, hf.2.2.2.2.2.2.2.1, hf.2.2.2.2.2.2.2.2.1]
    · exact observability_congr w _ _
        (hg.2.2.2.2.2.2.2.2.2.2.2.trans hf.2.2.2.2.2.2.2.2.2.2.2.symm)
    · intro s x
      exact frontEnd_congr_gui w _ _ s x (hg.2.2.2.2.2.2.2.2.2.1.trans hn) (hng.trans hn)

/-- C6, in the calm world: non-GUI mode with `quiet` set and `timings` set,
non-GUI mode with `quiet` unset and `failures` set, and GUI mode. -/
theorem C6_witness :
    (∃ s x, (Run calmWorld { Flags.default with nogui := true, quiet := true }).trace.getLast? =
      some (.nogui s x false false false)) ∧
    (∃ s x, (Run calmWorld { Flags.default with nogui := true, failures := true }).trace.getLast? =
      some (.nogui s x true true true)) ∧
    Run calmWorld { Flags.default with quiet := true, timings := false, failures := true } =
      Run calmWorld Flags.default :=
  ⟨(((C6_quiet_overrides calmWorld { Flags.default with nogui := true, quiet := true }).1
      [.otlp, .zipkin] rfl rfl (by decide)).imp fun _ h => h.imp fun _ h => h.1),
    (((C6_quiet_overrides calmWorld { Flags.default with nogui := true, failures := true }).2.1
      [.otlp, .zipkin] rfl rfl (by decide)).imp fun _ h => h.imp fun _ h => h.1),
    (C6_quiet_overrides calmWorld Flags.default).2.2 true false true rfl⟩

/-- The experiment a run loaded from a file is the decoding of the file into
the zero experiment. -/
theorem loaded_from_file (w : World) (fl : Flags) (x : ExperimentJSON)
    (hfile : fl.experimentFile ≠ "") (hl : (loadExperiment w fl).result = .ok x) :
    ∃ contents, w.osOpen fl.experimentFile = .ok contents ∧ (w.jsonDecode contents).2 = none ∧
      x = (w.jsonDecode contents).1.apply ExperimentJSON.zero := by
  rw [loadExperiment_of_file w fl hfile] at hl
  cases ho : w.osOpen fl.experimentFile with
  | error e => simp [ho] at hl
  | ok contents =>
    cases hd : (w.jsonDecode contents).2 with
    | some e => simp [ho, hd] at hl
    | none =>
      simp only [ho, hd, Except.ok.injEq] at hl
      exact ⟨contents, rfl, hd, hl.symm⟩

/-- C7: with an experiment file, two flag states that agree on the file, the
source, the source parameter, `nogui`, `quiet`, `timings`, `failures` and the
prometheus address give the same run, event for event, whatever their
targets, rate, concurrency, duration, host and experiment name are.  The
experiment such a run validates, and the one it hands to `nogui` or `NewGui`,
is the decoding of the file into the zero experiment: a field whose key the
file does not hold is zero there. -/
theorem C7_file_overrides_flags (w : World) (f1 f2 : Flags) (hfile : f1.experimentFile ≠ "")
    (h1 : f1.experimentFile = f2.experimentFile) (h2 : f1.source = f2.source)
    (h3 : f1.sourceParam = f2.sourceParam) (h4 : f1.nogui = f2.nogui)
    (h5 : f1.quiet = f2.quiet) (h6 : f1.timings = f2.timings)
    (h7 : f1.failures = f2.failures) (h8 : f1.prometheusAddr = f2.prometheusAddr) :
    Run w f1 = Run w f2 ∧
    (∀ exp, (Event.validateExperiment exp ∈ (Run w f1).trace ∨
        (∃ s a b c, Event.nogui s exp a b c ∈ (Run w f1).trace) ∨
        (∃ s, Event.NewGui s exp ∈ (Run w f1).trace)) →
      ∃ contents, w.osOpen f1.experimentFile = .ok contents ∧
        exp = (w.jsonDecode contents).1.apply ExperimentJSON.zero ∧
        ((w.jsonDecode contents).1.Name = none → exp.Name = "") ∧
        ((w.jsonDecode contents).1.Rate = none → exp.Rate = 0) ∧
        ((w.jsonDecode contents).1.Concurrency = none → exp.Concurrency = 0) ∧
        ((w.jsonDecode contents).1.Duration = none → exp.Duration = 0) ∧
        ((w.jsonDecode contents).1.Backends = none → exp.Backends = [])) := by
  have hf := quietOverride_fields f1
  have hg := quietOverride_fields f2
  constructor
  · apply Run_congr
    · exact selectSource_congr w _ _ (hf.1.trans (h2.trans hg.1.symm))
        (hf.2.1.trans (h3.trans hg.2.1.symm))
    · exact loadExperiment_congr_file w _ _ (hf.2.2.1.trans (h1.trans hg.2.2.1.symm))
        (by rw [hf.2.2.1]; exact hfile)
    · exact observability_congr w _ _
        (hf.2.2.2.2.2.2.2.2.2.2.2.trans (h8.trans hg.2.2.2.2.2.2.2.2.2.2.2.symm))
    · intro s x
      apply frontEnd_congr
      · exact hf.2.2.2.2.2.2.2.2.2.1.trans (h4.trans hg.2.2.2.2.2.2.2.2.2.1.symm)
      · exact hf.2.2.2.2.2.2.2.2.2.2.1.trans (h5.trans hg.2.2.2.2.2.2.2.2.2.2.1.symm)
      · unfold quietOverride
        rw [← h5]
        split <;> simp [h6]
      · unfold quietOverride
        rw [← h5]
        split <;> simp [h7]
  · intro exp hexp
    have hl : (loadExperiment w (quietOverride f1)).result = .ok exp := by
      rcases hexp with h | ⟨s, a, b, c, h⟩ | ⟨s, h⟩
      · exact Run_validate_mem w f1 exp h
      · obtain ⟨s1, x1, _, hl, _, _, hm⟩ := Run_frontEnd_mem w f1 _ h rfl
        rw [(frontEnd_exp w _ s1 x1).1 _ _ _ _ _ hm]
        exact hl
      · obtain ⟨s1, x1, _, hl, _, _, hm⟩ := Run_frontEnd_mem w f1 _ h rfl
        rw [(frontEnd_exp w _ s1 x1).2.1 _ _ hm]
        exact hl
    obtain ⟨contents, ho, _, hx⟩ :=
      loaded_from_file w _ exp (by rw [hf.2.2.1]; exact hfile) hl
    rw [hf.2.2.1] at ho
    refine ⟨contents, ho, hx, ?_, ?_, ?_, ?_, ?_⟩ <;> intro hnone <;> rw [hx] <;>
      simp [ExperimentPatch.apply, hnone, ExperimentJSON.zero]

/-- C7, in the calm world: the file `exp.json`, which has no `duration` key,
read under the default flags and under flags with other targets, rate,
concurrency, duration, host and name. -/
theorem C7_witness :
    Run calmWorld { Flags.default with experimentFile := "exp.json" } =
      Run calmWorld { Flags.default with experimentFile := "exp.json", experimentName := "x",
                                         targets := [], rate := 0, concurrency := 7,
                                         duration := 1, host := "h" } ∧
    Event.validateExperiment
        { Name := "ab", Rate := 5, Concurrency := 2, Duration := 0,
          Backends := [⟨"http://a:1", ""⟩, ⟨"http://b:2", "b.example"⟩] } ∈
      (Run calmWorld { Flags.default with experimentFile := "exp.json" }).trace :=
  ⟨(C7_file_overrides_flags calmWorld { Flags.default with experimentFile := "exp.json" }
      { Flags.default with experimentFile := "exp.json", experimentName := "x",
                           targets := [], rate := 0, concurrency := 7,
                           duration := 1, host := "h" }
      (by decide) rfl rfl rfl rfl rfl rfl rfl rfl).1, by decide⟩

theorem loaded_backends_nil (w : World) (f : Flags) (x : ExperimentJSON)
    (hzero : (f.experimentFile = "" ∧ f.targets = []) ∨
      (f.experimentFile ≠ "" ∧ ∀ contents, w.osOpen f.experimentFile = .ok contents →
        ((w.jsonDecode contents).1.apply ExperimentJSON.zero).Backends = []))
    (hl : (loadExperiment w (quietOverride f)).result = .ok x) : x.Backends = [] := by
  have hf := quietOverride_fields f
  rcases hzero with ⟨hfile, ht⟩ | ⟨hfile, hb⟩
  · rw [loadExperiment_of_flags w _ (hf.2.2.1.trans hfile)] at hl
    simp only [Except.ok.injEq] at hl
    rw [← hl]
    simp [hf.2.2.2.2.1, ht]
  · obtain ⟨contents, ho, _, hx⟩ :=
      loaded_from_file w _ x (by rw [hf.2.2.1]; exact hfile) hl
    rw [hf.2.2.1] at ho
    rw [hx]
    exact hb contents ho

/-- C4: with the validator of the spec, a configuration with zero backends (no
experiment file and no targets, or an experiment file whose decoding has no
backends) makes `Run` return an error; every event of the run belongs to the
choice of the source, the reading of the file or the validation, so neither
`nogui` nor the GUI is started; and when the run reaches the validation, the
validator turns the experiment down and the error of the run is
`"experiment: "` wrapping the validator's configuration error. -/
theorem C4_zero_backends (w : World) (f : Flags) (parsesAbsolute : String → Bool)
    (hv : ∀ exp, w.validateExperiment exp = validateExperiment parsesAbsolute exp)
    (hzero : (f.experimentFile = "" ∧ f.targets = []) ∨
      (f.experimentFile ≠ "" ∧ ∀ contents, w.osOpen f.experimentFile = .ok contents →
        ((w.jsonDecode contents).1.apply ExperimentJSON.zero).Backends = [])) :
    (Run w f).err ≠ none ∧
    (∀ ev ∈ (Run w f).trace, ev.phase ≤ 2) ∧
    (∀ s x a b c, Event.nogui s x a b c ∉ (Run w f).trace) ∧
    (∀ s x, Event.NewGui s x ∉ (Run w f).trace) ∧
    (∀ g ms, Event.GuiShow g ms ∉ (Run w f).trace) ∧
    (∀ exp, Event.validateExperiment exp ∈ (Run w f).trace →
      exp.Backends = [] ∧
      ∃ e, w.validateExperiment exp = some e ∧
        (Run w f).err = some (.errorfW "experiment: " e)) := by
  have hbad : ∀ x, (loadExperiment w (quietOverride f)).result = .ok x →
      w.validateExperiment x = some (.leaf "configuration error: empty backend list") := by
    intro x hl
    rw [hv, validateExperiment, if_pos (loaded_backends_nil w f x hzero hl)]
  have key : (Run w f).err ≠ none ∧ (∀ ev ∈ (Run w f).trace, ev.phase ≤ 2) ∧
      ((Run w f).err = some (.errorfW "experiment: "
        (.leaf "configuration error: empty backend list")) ∨
        ∀ exp, Event.validateExperiment exp ∉ (Run w f).trace) := by
    rcases Run_shape w f with ⟨e1, _, hR⟩ | ⟨s, _, ⟨e1, _, hR⟩ | ⟨x, hl, ⟨e1, hv1, hR⟩ |
      ⟨hv1, _⟩⟩⟩
    · rw [hR]
      refine ⟨by simp [Eff.err], ?_, Or.inr ?_⟩
      · intro ev h; rw [selectSource_phase w _ _ h]; decide
      · intro exp h; have := selectSource_phase w _ _ h; simp [Event.phase] at this
    · rw [hR]
      have hph : ∀ ev ∈ (selectSource w (quietOverride f)).trace ++
          (loadExperiment w (quietOverride f)).trace, ev.phase ≤ 1 := by
        intro ev h
        rcases List.mem_append.1 h with h | h
        · rw [selectSource_phase w _ _ h]; decide
        · rw [loadExperiment_phase w _ _ h]
      refine ⟨by simp [Eff.err], fun ev h => Nat.le_succ_of_le (hph ev h), Or.inr ?_⟩
      intro exp h; have := hph _ h; simp [Event.phase] at this
    · rw [hbad x hl] at hv1
      cases hv1
      rw [hR]
      refine ⟨by simp [Eff.err], ?_, Or.inl rfl⟩
      intro ev h
      simp only [List.mem_append, List.mem_singleton] at h
      rcases h with h | h | h
      · rw [selectSource_phase w _ _ h]; decide
      · rw [loadExperiment_phase w _ _ h]; decide
      · rw [h]; exact Nat.le_refl 2
    · rw [hbad x hl] at hv1
      cases hv1
  obtain ⟨k1, k2, k3⟩ := key
  refine ⟨k1, k2, ?_, ?_, ?_, ?_⟩
  · intro s x a b c h; have := k2 _ h; simp [Event.phase] at this
  · intro s x h; have := k2 _ h; simp [Event.phase] at this
  · intro g ms h; have := k2 _ h; simp [Event.phase] at this
  · intro exp h
    refine ⟨loaded_backends_nil w f exp hzero (Run_validate_mem w f exp h), _,
      hbad exp (Run_validate_mem w f exp h), ?_⟩
    rcases k3 with k3 | k3
    · exact k3
    · exact absurd h (k3 exp)

/-- C4, with the validator of the spec: no targets and no file, and the file
`empty.json`, whose list of backends is empty. -/
theorem C4_witness :
    (∃ e, (Run specWorld { Flags.default with targets := [] }).err =
      some (.errorfW "experiment: " e)) ∧
    (∃ e, (Run specWorld { Flags.default with experimentFile := "empty.json" }).err =
      some (.errorfW "experiment: " e)) ∧
    (∀ s x a b c, Event.nogui s x a b c ∉
      (Run specWorld { Flags.default with targets := [] }).trace) :=
  ⟨((C4_zero_backends specWorld { Flags.default with targets := [] } isAbsURL
      (fun _ => rfl) (Or.inl ⟨rfl, rfl⟩)).2.2.2.2.2
      { Name := "adhoc", Rate := 10, Concurrency := 10, Duration := 60, Backends := [] }
      (by decide)).2.imp fun _ h => h.2,
    ((C4_zero_backends specWorld { Flags.default with experimentFile := "empty.json" } isAbsURL
      (fun _ => rfl) (Or.inr ⟨by decide, fun contents h => by
        have hc : contents = "no backends" := by
          have h1 : (Except.ok "no backends" : Except GoError String) = .ok contents := h
          exact (Except.ok.inj h1).symm
        subst hc
        rfl⟩)).2.2.2.2.2
      { Name := "none", Rate := 5, Concurrency := 2, Duration := 9, Backends := [] }
      (by decide)).2.imp fun _ h => h.2,
    (C4_zero_backends specWorld { Flags.default with targets := [] } isAbsURL
      (fun _ => rfl) (Or.inl ⟨rfl, rfl⟩)).2.2.1⟩

/-! ## The tracer exporters -/

/-- The loop of `buildTracerExporters` when the constructors succeed: it stops
at the first name without a case, and otherwise builds one exporter a name. -/
theorem loop_spec (w : World) (h1 : w.otlptracegrpcNew = none) (h2 : w.jaegerNew = none)
    (h3 : w.zipkinNew = none) (l : List String) :
    ∀ (exporters : List SpanExporter) (tr : List Event),
      match l.find? (fun s => !knownExporter s) with
      | some bad =>
        (buildTracerExporters.loop w l exporters tr).2 =
          ([], some (.errorfQ "unknown or unsupported exporter: " bad))
      | none =>
        (buildTracerExporters.loop w l exporters tr).2.2 = none ∧
        (buildTracerExporters.loop w l exporters tr).2.1.map SpanExporter.name =
          exporters.map SpanExporter.name ++ l := by
  induction l with
  | nil => intro exporters tr; simp [buildTracerExporters.loop]
  | cons s rest ih =>
    intro exporters tr
    by_cases ha : s = "otlp"
    · have hk : knownExporter s = true := by simp [knownExporter, ha]
      have := ih (exporters ++ [.otlp]) (tr ++ [.otlptracegrpcNew])
      simp only [List.find?_cons, hk, Bool.not_true]
      simp only [buildTracerExporters.loop, ha, if_true, h1]
      cases hfind : rest.find? (fun s => !knownExporter s) with
      | some bad => simpa [hfind] using this
      | none => simpa [hfind, SpanExporter.name] using this
    · by_cases hb : s = "jaeger"
      · have hk : knownExporter s = true := by simp [knownExporter, hb]
        have := ih (exporters ++ [.jaeger]) (tr ++ [.jaegerNew])
        simp only [List.find?_cons, hk, Bool.not_true]
        subst hb
        simp only [buildTracerExporters.loop, ha, if_false, if_true, h2]
        cases hfind : rest.find? (fun s => !knownExporter s) with
        | some bad => simpa [hfind] using this
        | none => simpa [hfind, SpanExporter.name] using this
      · by_cases hc : s = "zipkin"
        · have hk : knownExporter s = true := by simp [knownExporter, hc]
          have := ih (exporters ++ [.zipkin]) (tr ++ [.zipkinNew])
          simp only [List.find?_cons, hk, Bool.not_true]
          subst hc
          simp only [buildTracerExporters.loop, ha, hb, if_false, if_true, h3]
          cases hfind : rest.find? (fun s => !knownExporter s) with
          | some bad => simpa [hfind] using this
          | none => simpa [hfind, SpanExporter.name] using this
        · have hk : knownExporter s = false := by simp [knownExporter, ha, hb, hc]
          simp [List.find?_cons, hk, buildTracerExporters.loop, ha, hb, hc]

theorem splitChars_cons_sep (sep : Char) (cs : List Char) :
    splitChars sep (sep :: cs) = [] :: splitChars sep cs := by
  simp [splitChars]

theorem splitChars_ne_nil (sep : Char) (cs : List Char) : splitChars sep cs ≠ [] := by
  cases cs with
  | nil => simp [splitChars]
  | cons c cs =>
    simp only [splitChars]
    split_ifs
    · simp
    · split <;> simp

theorem splitChars_append_sep (sep : Char) (a b : List Char) :
    ∃ pieces, pieces ≠ [] ∧ splitChars sep (a ++ sep :: b) = pieces ++ splitChars sep b := by
  induction a with
  | nil => exact ⟨[[]], by simp, by simp [splitChars]⟩
  | cons c a ih =>
    obtain ⟨pieces, hne, hsplit⟩ := ih
    by_cases hc : c = sep
    · exact ⟨[] :: pieces, by simp, by simp [splitChars, hc, hsplit]⟩
    · cases pieces with
      | nil => exact absurd rfl hne
      | cons p ps =>
        refine ⟨(c :: p) :: ps, by simp, ?_⟩
        have h2 : splitChars sep (c :: (a ++ sep :: b)) =
            match splitChars sep (a ++ sep :: b) with
            | [] => [[c]]
            | piece :: pieces => (c :: piece) :: pieces := by
          simp [splitChars, hc]
        rw [List.cons_append, h2, hsplit]
        rfl

theorem stringsSplit_leading (s : String) :
    stringsSplit ("," ++ s) ',' = "" :: stringsSplit s ',' := by
  simp [stringsSplit, splitChars]

theorem stringsSplit_trailing (s : String) :
    (stringsSplit (s ++ ",") ',').getLast? = some "" := by
  obtain ⟨pieces, _, h⟩ := splitChars_append_sep ',' s.data []
  have hd : (s ++ ",").data = s.data ++ [','] := by simp
  simp only [stringsSplit, hd, h, splitChars, List.map_append, List.map_cons, List.map_nil]
  simp

theorem stringsSplit_doubled (a b : String) :
    "" ∈ stringsSplit (a ++ ",," ++ b) ',' := by
  obtain ⟨pieces, _, h⟩ := splitChars_append_sep ',' a.data (',' :: b.data)
  have hd : (a ++ ",," ++ b).data = a.data ++ ',' :: ',' :: b.data := by simp
  simp only [stringsSplit, hd, h, splitChars_cons_sep, List.map_append, List.map_cons,
    List.mem_append, List.mem_cons]
  exact Or.inr (Or.inl trivial)

/-- C10: `buildTracerExporters` is decided by the value `v` of
`OTEL_TRACES_EXPORTER`.  For the empty `v` it returns the nil slice and no
error and calls no constructor.  Otherwise, the constructors succeeding, it
returns no error exactly when every element of `strings.Split(v, ",")` is
`otlp`, `jaeger` or `zipkin`, and then the names of the exporters it returns
are the elements, in their order, duplicates kept; if some element is
anything else it returns the nil slice and the error `unknown or unsupported
exporter` with the first such element.  A leading, a trailing and a doubled
comma each produce the empty element, which has no case, and neither has a
name with a blank before or after it. -/
theorem C10_buildTracerExporters (w : World) :
    (w.otelTracesExporter = "" → buildTracerExporters w = ([.buildTracerExporters], [], none)) ∧
    (w.otelTracesExporter ≠ "" → w.otlptracegrpcNew = none → w.jaegerNew = none →
      w.zipkinNew = none →
      ((buildTracerExporters w).2.2 = none ↔
        ∀ s ∈ stringsSplit w.otelTracesExporter ',', s = "otlp" ∨ s = "jaeger" ∨ s = "zipkin") ∧
      ((buildTracerExporters w).2.2 = none →
        (buildTracerExporters w).2.1.map SpanExporter.name =
          stringsSplit w.otelTracesExporter ',') ∧
      (∀ bad, (stringsSplit w.otelTracesExporter ',').find?
          (fun s => decide (s ≠ "otlp" ∧ s ≠ "jaeger" ∧ s ≠ "zipkin")) = some bad →
        (buildTracerExporters w).2 =
          ([], some (.errorfQ "unknown or unsupported exporter: " bad))) ∧
      ((∃ s ∈ stringsSplit w.otelTracesExporter ',', s ≠ "otlp" ∧ s ≠ "jaeger" ∧ s ≠ "zipkin") →
        ∃ bad ∈ stringsSplit w.otelTracesExporter ',',
          (bad ≠ "otlp" ∧ bad ≠ "jaeger" ∧ bad ≠ "zipkin") ∧
          (buildTracerExporters w).2 =
            ([], some (.errorfQ "unknown or unsupported exporter: " bad)))) ∧
    (∀ s : String, (stringsSplit ("," ++ s) ',').head? = some "") ∧
    (∀ s : String, (stringsSplit (s ++ ",") ',').getLast? = some "") ∧
    (∀ a b : String, "" ∈ stringsSplit (a ++ ",," ++ b) ',') ∧
    stringsSplit "otlp, jaeger" ',' = ["otlp", " jaeger"] ∧
    stringsSplit "otlp ,jaeger" ',' = ["otlp ", "jaeger"] := by
  have hfun : (fun s : String => decide (s ≠ "otlp" ∧ s ≠ "jaeger" ∧ s ≠ "zipkin")) =
      (fun s => !knownExporter s) := by
    funext s
    simp only [knownExporter]
    by_cases h1 : s = "otlp" <;> by_cases h2 : s = "jaeger" <;> by_cases h3 : s = "zipkin" <;>
      simp [h1, h2, h3]
  refine ⟨?_, ?_, fun s => by rw [stringsSplit_leading]; rfl, stringsSplit_trailing,
    stringsSplit_doubled, by decide, by decide⟩
  · intro h
    simp [buildTracerExporters, h]
  · intro hv h1 h2 h3
    have spec := loop_spec w h1 h2 h3 (stringsSplit w.otelTracesExporter ',') []
      [.buildTracerExporters]
    have hb : buildTracerExporters w =
        buildTracerExporters.loop w (stringsSplit w.otelTracesExporter ',') []
          [.buildTracerExporters] := by
      simp [buildTracerExporters, hv]
    rw [hb, hfun]
    cases hfind : (stringsSplit w.otelTracesExporter ',').find? (fun s => !knownExporter s) with
    | some bad =>
      rw [hfind] at spec
      simp only at spec
      have hmem := List.mem_of_find?_eq_some hfind
      have hbad := List.find?_some hfind
      have hbad3 : bad ≠ "otlp" ∧ bad ≠ "jaeger" ∧ bad ≠ "zipkin" := by
        simpa [knownExporter] using hbad
      refine ⟨?_, ?_, ?_, ?_⟩
      · rw [spec]
        constructor
        · intro h; cases h
        · intro h
          rcases h bad hmem with h | h | h
          · exact absurd h hbad3.1
          · exact absurd h hbad3.2.1
          · exact absurd h hbad3.2.2
      · rw [spec]
        intro h; cases h
      · intro bad1 hb1
        cases hb1
        exact spec
      · intro _
        exact ⟨bad, hmem, hbad3, spec⟩
    | none =>
      rw [hfind] at spec
      simp only at spec
      have hall : ∀ s ∈ stringsSplit w.otelTracesExporter ',',
          s = "otlp" ∨ s = "jaeger" ∨ s = "zipkin" := by
        intro s hs
        have := List.find?_eq_none.1 hfind s hs
        simp only [knownExporter, Bool.not_eq_true, Bool.not_eq_false', decide_eq_true_eq,
          not_not, Bool.not_not] at this
        exact this
      refine ⟨⟨fun _ => hall, fun _ => spec.1⟩, ?_, ?_, ?_⟩
      · intro _
        simpa using spec.2
      · intro bad hb1
        cases hb1
      · rintro ⟨s, hs, n1, n2, n3⟩
        rcases hall s hs with h | h | h
        · exact absurd h n1
        · exact absurd h n2
        · exact absurd h n3

/-- C10, at three values of `OTEL_TRACES_EXPORTER`: a list with a duplicate,
a doubled comma, and the empty text. -/
theorem C10_witness :
    (buildTracerExporters { calmWorld with otelTracesExporter := "zipkin,otlp,zipkin" }).2.1.map
      SpanExporter.name = ["zipkin", "otlp", "zipkin"] ∧
    (buildTracerExporters { calmWorld with otelTracesExporter := "otlp,,jaeger" }).2 =
      ([], some (.errorfQ "unknown or unsupported exporter: " "")) ∧
    buildTracerExporters { calmWorld with otelTracesExporter := "" } =
      ([.buildTracerExporters], [], none) :=
  ⟨((C10_buildTracerExporters { calmWorld with otelTracesExporter := "zipkin,otlp,zipkin" }).2.1
      (by decide) rfl rfl rfl).2.1 (by decide),
    ((C10_buildTracerExporters { calmWorld with otelTracesExporter := "otlp,,jaeger" }).2.1
      (by decide) rfl rfl rfl).2.2.1 "" (by decide),
    (C10_buildTracerExporters { calmWorld with otelTracesExporter := "" }).1 rfl⟩

/-! ## The dispatcher -/

theorem fanOut_append (n : Nat) (l : List Nat) (r : Nat) :
    fanOut n (l ++ [r]) = fanOut n l ++ (List.range n).map (fun b => (r, b)) := by
  induction l with
  | nil => simp [fanOut]
  | cons a l ih => simp [fanOut, ih]

theorem fanOut_length (n : Nat) (l : List Nat) : (fanOut n l).length = n * l.length := by
  induction l with
  | nil => simp [fanOut]
  | cons a l ih => simp [fanOut, ih, Nat.mul_succ, Nat.add_comm]

theorem mem_fanOut (n : Nat) (l : List Nat) (r b : Nat) :
    (r, b) ∈ fanOut n l ↔ r ∈ l ∧ b < n := by
  induction l with
  | nil => simp [fanOut]
  | cons a l ih =>
    simp only [fanOut, List.mem_append, List.mem_map, List.mem_range, Prod.mk.injEq, ih,
      List.mem_cons]
    constructor
    · rintro (⟨b1, hb1, rfl, rfl⟩ | ⟨h1, h2⟩)
      · exact ⟨Or.inl rfl, hb1⟩
      · exact ⟨Or.inr h1, h2⟩
    · rintro ⟨h1 | h1, h2⟩
      · exact Or.inl ⟨b, h2, h1.symm, rfl⟩
      · exact Or.inr ⟨h1, h2⟩

theorem fanOut_nodup (n : Nat) (l : List Nat) (h : l.Nodup) : (fanOut n l).Nodup := by
  induction l with
  | nil => simp [fanOut]
  | cons a l ih =>
    rw [List.nodup_cons] at h
    simp only [fanOut]
    refine List.Nodup.append ?_ (ih h.2) ?_
    · exact (List.nodup_range n).map (fun x y hxy => (Prod.mk.inj hxy).2)
    · intro q hq1 hq2
      obtain ⟨r, b⟩ := q
      simp only [List.mem_map, List.mem_range, Prod.mk.injEq] at hq1
      obtain ⟨_, _, rfl, _⟩ := hq1
      exact h.1 ((mem_fanOut n l _ b).1 hq2).1

theorem Inv_initial (cfg : Engine) : cfg.Inv cfg.initial := by
  simp [Engine.Inv, Engine.initial, pairsOf, fanOut]

theorem perm_cons_erase_lawful {α : Type} [BEq α] [LawfulBEq α] {a : α} {l : List α}
    (h : a ∈ l) : (a :: l.erase a).Perm l := by
  induction l with
  | nil => simp at h
  | cons x l ih =>
    by_cases hx : x = a
    · subst hx
      simp
    · have hmem : a ∈ l := by
        rcases List.mem_cons.1 h with h | h
        · exact absurd h.symm hx
        · exact h
      have hne : (x == a) = false := by simpa using hx
      rw [List.erase_cons, hne]
      exact (List.Perm.swap x a _).trans (List.Perm.cons x (ih hmem))

theorem step_inv (cfg : Engine) (s s1 : EngineState) (a : Action) (hinv : cfg.Inv s)
    (hstep : cfg.step s a = some s1) : cfg.Inv s1 := by
  obtain ⟨hperm, hnodup, hdisp, hdrop, hdisj⟩ := hinv
  have hdispatch : ∀ fr : Nat, cfg.Inv
      { stopped := s.stopped, pulled := s.pulled + 1, free := fr,
        pending := s.pending ++ (List.range cfg.backends).map (fun b => (s.pulled, b)),
        recorded := s.recorded, dispatched := s.dispatched ++ [s.pulled],
        dropped := s.dropped } := by
    intro fr
    refine ⟨?_, ?_, ?_, fun r hr => Nat.lt_succ_of_lt (hdrop r hr), ?_⟩
    · simp only [fanOut_append]
      have h := List.Perm.append_right
        ((List.range cfg.backends).map (fun b => (s.pulled, b))) hperm
      refine List.Perm.trans ?_ h
      simp only [List.append_assoc]
      exact List.Perm.append_left _ List.perm_append_comm
    · refine List.Nodup.append hnodup (by simp) ?_
      intro r hr1 hr2
      simp at hr2; subst hr2
      exact Nat.lt_irrefl _ (hdisp _ hr1)
    · intro r hr
      rcases List.mem_append.1 hr with hr | hr
      · exact Nat.lt_succ_of_lt (hdisp r hr)
      · simp at hr; subst hr; exact Nat.lt_succ_self _
    · intro r hr hmem
      rcases List.mem_append.1 hmem with hmem | hmem
      · exact hdisj r hr hmem
      · simp at hmem; subst hmem
        exact Nat.lt_irrefl _ (hdrop _ hr)
  cases a with
  | tick =>
    simp only [Engine.step] at hstep
    by_cases h1 : s.stopped = true
    · rw [if_pos h1] at hstep
      cases hstep
    · rw [if_neg h1] at hstep
      by_cases h2 : (match cfg.sourceLen with
          | some k => decide (k ≤ s.pulled)
          | none => false) = true
      · rw [if_pos h2] at hstep
        cases hstep
        exact ⟨hperm, hnodup, hdisp, hdrop, hdisj⟩
      · rw [if_neg h2] at hstep
        by_cases h3 : s.free = 0
        · rw [if_pos h3] at hstep
          cases hstep
          refine ⟨hperm, hnodup, fun r hr => Nat.lt_succ_of_lt (hdisp r hr), ?_, ?_⟩
          · intro r hr
            rcases List.mem_append.1 hr with hr | hr
            · exact Nat.lt_succ_of_lt (hdrop r hr)
            · simp at hr; subst hr; exact Nat.lt_succ_self _
          · intro r hr
            rcases List.mem_append.1 hr with hr | hr
            · exact hdisj r hr
            · simp at hr; subst hr
              intro hmem; exact Nat.lt_irrefl _ (hdisp _ hmem)
        · rw [if_neg h3] at hstep
          cases hstep
          exact hdispatch _
  | complete r b cls =>
    simp only [Engine.step] at hstep
    by_cases h1 : (r, b) ∈ s.pending
    · rw [if_pos h1] at hstep
      cases hstep
      refine ⟨?_, hnodup, hdisp, hdrop, hdisj⟩
      refine List.Perm.trans ?_ hperm
      have e1 : pairsOf (s.recorded ++ [{ request := r, backend := b, cls := cls }]) =
          pairsOf s.recorded ++ [(r, b)] := by simp [pairsOf]
      show (s.pending.erase (r, b) ++
        pairsOf (s.recorded ++ [{ request := r, backend := b, cls := cls }])).Perm _
      rw [e1, ← List.append_assoc]
      have p1 : ((s.pending.erase (r, b) ++ pairsOf s.recorded) ++ [(r, b)]).Perm
          ((r, b) :: (s.pending.erase (r, b) ++ pairsOf s.recorded)) := List.perm_append_comm
      have p2 : ((r, b) :: (s.pending.erase (r, b) ++ pairsOf s.recorded)).Perm
          (s.pending ++ pairsOf s.recorded) := by
        rw [← List.cons_append]
        exact List.Perm.append_right (pairsOf s.recorded) (perm_cons_erase_lawful h1)
      exact p1.trans p2
    · rw [if_neg h1] at hstep
      cases hstep
  | stop =>
    simp only [Engine.step] at hstep
    cases hstep
    exact ⟨hperm, hnodup, hdisp, hdrop, hdisj⟩

theorem run_inv (cfg : Engine) (schedule : List Action) :
    ∀ s s1 : EngineState, cfg.Inv s → cfg.run s schedule = some s1 → cfg.Inv s1 := by
  induction schedule with
  | nil =>
    intro s s1 hinv hrun
    simp only [Engine.run, Option.some.injEq] at hrun
    subst hrun; exact hinv
  | cons a rest ih =>
    intro s s1 hinv hrun
    simp only [Engine.run] at hrun
    cases hstep : cfg.step s a with
    | none => simp [hstep] at hrun
    | some s2 =>
      simp only [hstep] at hrun
      exact ih s2 s1 (step_inv cfg s s2 a hinv hstep) hrun

/-- Every call in flight can complete and the dispatcher can stop: the run
can always be brought to its end, with the same requests dispatched and
dropped. -/
theorem run_drain (cfg : Engine) (pending : List (Nat × Nat)) :
    ∀ s : EngineState, s.pending = pending →
      ∃ s1, cfg.run s s.drain = some s1 ∧ s1.pending = [] ∧ s1.stopped = true ∧
        s1.dispatched = s.dispatched ∧ s1.dropped = s.dropped := by
  induction pending with
  | nil =>
    intro s hp
    exact ⟨{ s with stopped := true }, by simp [EngineState.drain, hp, Engine.run, Engine.step],
      hp, rfl, rfl, rfl⟩
  | cons q rest ih =>
    intro s hp
    have hmem : (q.1, q.2) ∈ s.pending := by rw [hp]; simp
    have herase : s.pending.erase (q.1, q.2) = rest := by rw [hp]; simp
    obtain ⟨s2, hstep, hp2, hd2, hr2⟩ : ∃ s2, cfg.step s (.complete q.1 q.2 .cancelled) = some s2 ∧
        s2.pending = rest ∧ s2.dispatched = s.dispatched ∧ s2.dropped = s.dropped := by
      refine ⟨{ s with
        pending := s.pending.erase (q.1, q.2)
        recorded := s.recorded ++ [{ request := q.1, backend := q.2, cls := .cancelled }]
        free := if (s.pending.erase (q.1, q.2)).any (fun p => p.1 = q.1) then s.free
          else s.free + 1 }, ?_, herase, rfl, rfl⟩
      simp only [Engine.step]
      rw [if_pos hmem]
    obtain ⟨s1, hrun, h1, h2, h3, h4⟩ := ih s2 hp2
    refine ⟨s1, ?_, h1, h2, h3.trans hd2, h4.trans hr2⟩
    have hd : s.drain = Action.complete q.1 q.2 .cancelled :: s2.drain := by
      simp [EngineState.drain, hp, hp2]
    rw [hd]
    simp only [Engine.run, hstep]
    exact hrun

theorem countP_pairsOf (recorded : List Outcome) (r b : Nat) :
    (pairsOf recorded).countP (fun q => decide (q = (r, b))) =
      recorded.countP (fun o => decide (o.request = r ∧ o.backend = b)) := by
  induction recorded with
  | nil => simp [pairsOf]
  | cons o rest ih =>
    simp only [pairsOf, List.map_cons] at ih ⊢
    rw [List.countP_cons, List.countP_cons, ih]
    simp only [Prod.mk.injEq]

theorem countP_eq_one_of_nodup {α : Type} [DecidableEq α] (l : List α) (a : α)
    (hn : l.Nodup) (hm : a ∈ l) : l.countP (fun x => decide (x = a)) = 1 := by
  induction l with
  | nil => simp at hm
  | cons x l ih =>
    rw [List.nodup_cons] at hn
    rw [List.countP_cons]
    by_cases hx : x = a
    · subst hx
      have h0 : l.countP (fun y => decide (y = x)) = 0 := by
        rw [List.countP_eq_zero]
        intro y hy
        simp only [decide_eq_true_eq]
        intro hyx
        exact hn.1 (hyx ▸ hy)
      simp [h0]
    · have hmem : a ∈ l := by
        rcases List.mem_cons.1 hm with h | h
        · exact absurd h.symm hx
        · exact h
      simp [hx, ih hn.2 hmem]

/-- C8: fan-out completeness of the engine of the spec.  In every state a run
of the engine reaches, under every schedule, the outcomes recorded and the
calls still in flight are together `N * M`, `N` the number of backends and `M`
the number of requests dispatched; every outcome is of a dispatched request
and a configured backend; a dropped request has no outcome and no call in
flight, so never a partial set.  Once no call is in flight, as when `Run`
returns, the aggregator holds exactly `N * M` outcomes, exactly one for every
pair of a dispatched request and a backend.  And the run can always reach
that end: the calls in flight complete, with the same requests dispatched and
dropped. -/
theorem C8_fan_out_completeness (cfg : Engine) (schedule : List Action) (s : EngineState)
    (hrun : cfg.run cfg.initial schedule = some s) :
    s.recorded.length + s.pending.length = cfg.backends * s.dispatched.length ∧
    (s.pending = [] →
      s.recorded.length = cfg.backends * s.dispatched.length ∧
      ∀ r ∈ s.dispatched, ∀ b < cfg.backends,
        s.recorded.countP (fun o => decide (o.request = r ∧ o.backend = b)) = 1) ∧
    (∀ o ∈ s.recorded, o.request ∈ s.dispatched ∧ o.backend < cfg.backends) ∧
    (∀ r ∈ s.dropped, ∀ o ∈ s.recorded, o.request ≠ r) ∧
    (∀ r ∈ s.dropped, ∀ b, (r, b) ∉ s.pending) ∧
    (∃ s1, cfg.run s s.drain = some s1 ∧ s1.pending = [] ∧ s1.stopped = true ∧
      s1.dispatched = s.dispatched ∧ s1.dropped = s.dropped) := by
  obtain ⟨hperm, hnodup, _, _, hdisj⟩ := run_inv cfg schedule _ s (Inv_initial cfg) hrun
  have hlen : s.recorded.length + s.pending.length = cfg.backends * s.dispatched.length := by
    have := hperm.length_eq
    rw [fanOut_length] at this
    simp only [List.length_append, pairsOf, List.length_map] at this
    omega
  have hrec : ∀ o ∈ s.recorded, o.request ∈ s.dispatched ∧ o.backend < cfg.backends := by
    intro o ho
    have h1 : (o.request, o.backend) ∈ s.pending ++ pairsOf s.recorded :=
      List.mem_append_right _ (List.mem_map.2 ⟨o, ho, rfl⟩)
    exact (mem_fanOut _ _ _ _).1 (hperm.mem_iff.1 h1)
  refine ⟨hlen, ?_, hrec, ?_, ?_, run_drain cfg s.pending s rfl⟩
  · intro hp
    refine ⟨by simpa [hp] using hlen, ?_⟩
    intro r hr b hb
    rw [← countP_pairsOf]
    have hc := hperm.countP_eq (fun q => decide (q = (r, b)))
    rw [hp, List.nil_append] at hc
    rw [hc]
    exact countP_eq_one_of_nodup _ _ (fanOut_nodup _ _ hnodup) ((mem_fanOut _ _ _ _).2 ⟨hr, hb⟩)
  · intro r hr o ho h
    exact hdisj r hr (h ▸ (hrec o ho).1)
  · intro r hr b hmem
    have h1 : (r, b) ∈ s.pending ++ pairsOf s.recorded := List.mem_append_left _ hmem
    exact hdisj r hr ((mem_fanOut _ _ _ _).1 (hperm.mem_iff.1 h1)).1

/-- C8, for two backends and one slot: the first request is dispatched, the
second is dropped while the first is in flight, the third is dispatched after
the slot is free again; four outcomes for two dispatched requests. -/
theorem C8_witness :
    ∃ s, Engine.run { backends := 2, concurrency := 1, sourceLen := none }
        (Engine.initial { backends := 2, concurrency := 1, sourceLen := none })
        [.tick, .tick, .complete 0 1 .success, .complete 0 0 .transportError, .tick, .stop,
          .complete 2 0 .success, .complete 2 1 .cancelled] = some s ∧
      s.dispatched = [0, 2] ∧ s.dropped = [1] ∧ s.pending = [] ∧ s.recorded.length = 4 ∧
      s.recorded.length + s.pending.length = 2 * s.dispatched.length :=
  ⟨_, rfl, rfl, rfl, rfl, rfl,
    (C8_fan_out_completeness { backends := 2, concurrency := 1, sourceLen := none }
      [.tick, .tick, .complete 0 1 .success, .complete 0 0 .transportError, .tick, .stop,
        .complete 2 0 .success, .complete 2 1 .cancelled] _ rfl).1⟩

end Dealgood
